import Mathlib

/-!
# oklog `pkg/store/compressor.go`: a shallow embedding

The file embeds the `compressor` string type with its suffix functions and the
`compressedFile` wrapper with `Read`, `Write` and `Close`, and proves properties
of them.

* A Go `string` is a finite sequence of bytes: `GoString := List (Fin 256)`.
* `strings.HasSuffix` and `strings.TrimSuffix` follow the Go standard library.
* The file-like resource and the gzip codec are external: their behaviour is a
  parameter (`Env`), a record of state-passing functions over a world `W`.
  Every call the wrapper makes on them is logged, with the error it returned.
  A call that reaches an object returns to its caller; what it returns is free.
  `Close` on the nil `*gzip.Reader` or `*gzip.Writer` (pointer 0) reaches no
  object: it panics. `compressedFile.Close` therefore ends in an `Outcome`.
  In `Read` and `Write` the delegated call is the last step of the method, so
  nothing of the wrapper depends on how that call ends; there the model gives
  what the environment returns.
* A pointer receiver `c *compressedFile` becomes state passing: a method takes
  the struct value and gives the updated value back.
* A Go interface value is `nil` only when it holds no dynamic type. The fields
  `r` and `w` are therefore `Option`s, and a `*gzip.Reader` stored in `r` makes
  `r` non-nil whatever the pointer is.
* What is read back after a write depends on the codec. It is stated over one
  family of environments, `codecEnv k`, for a codec `k` given by an encoder and
  a decoder; `readAll` is the read-to-end loop, with fuel.
-/

namespace Oklog

/-- A Go `byte`. -/
abbrev GoByte := Fin 256

/-- A Go `string`: an immutable sequence of bytes. -/
abbrev GoString := List GoByte

/-- The bytes of an ASCII literal (every character of `s` below 128). -/
def ascii (s : String) : GoString :=
  s.toList.map (fun ch => Fin.ofNat ch.toNat)

namespace strings

/-- Go `strings.HasSuffix`:
`len(s) >= len(suffix) && s[len(s)-len(suffix):] == suffix`. -/
def HasSuffix (s suffix : GoString) : Bool :=
  decide (s.length ≥ suffix.length) && s.drop (s.length - suffix.length) == suffix

/-- Go `strings.TrimSuffix`:
`if HasSuffix(s, suffix) { return s[:len(s)-len(suffix)] }; return s`. -/
def TrimSuffix (s suffix : GoString) : GoString :=
  if HasSuffix s suffix then s.take (s.length - suffix.length) else s

end strings

/-- Go `type compressor string`. -/
structure compressor where
  str : GoString
  deriving DecidableEq, Repr

/-- Go `noCompressor = compressor("")`. -/
def noCompressor : compressor := ⟨[]⟩

/-- Go `gzipCompressor = compressor(".gzip")`; the bytes are `.`, `g`, `z`, `i`, `p`. -/
def gzipCompressor : compressor := ⟨[46, 103, 122, 105, 112]⟩

namespace compressor

/-- Go `func (c compressor) Ext() string`. -/
def Ext (c : compressor) : GoString := c.str

/-- Go `func (c compressor) Bare(path string) string`. -/
def Bare (c : compressor) (path : GoString) : GoString :=
  strings.TrimSuffix path c.str

/-- Go `func (c compressor) With(path string) string`. -/
def With (c : compressor) (path : GoString) : GoString :=
  if c = ⟨[]⟩ then path
  else
    let ext := c.str
    if strings.HasSuffix path ext then path
    else path ++ ext

/-- Go `func (c compressor) From(path string) compressor`; the receiver is not used. -/
def From (_c : compressor) (path : GoString) : compressor :=
  if strings.HasSuffix path gzipCompressor.str then gzipCompressor
  else noCompressor

end compressor

/-! ## External collaborators: the file-like resource and the gzip codec -/

/-- A Go `error`: `none` is `nil`, `some e` is a non-nil error value. -/
abbrev GoError := Option Nat

/-- A non-nil `fs.File` interface value, identified by a number. -/
abbrev fsFile := Nat

/-- A `*gzip.Reader` or `*gzip.Writer` pointer as returned by the gzip package;
`0` stands for the nil pointer. -/
abbrev Ptr := Nat

/-- Go `gzip.BestSpeed`. -/
def gzip.BestSpeed : Int := 1

/-- What a `Read(p []byte) (int, error)` call gives back: the count, the error
and the contents of the buffer `p` after the call. -/
structure ReadResult where
  n : Int
  err : GoError
  buf : List GoByte
  deriving DecidableEq, Repr

/-- What a `Write(p []byte) (int, error)` call gives back. -/
structure WriteResult where
  n : Int
  err : GoError
  deriving DecidableEq, Repr

/-- Behaviour of the code outside `compressor.go`, over a world state `W`:
the methods of `fs.File` and the functions and methods of `compress/gzip` that
the wrapper calls. Every function is a parameter of the development. -/
structure Env (W : Type) where
  Name : fsFile → W → GoString
  Read : fsFile → List GoByte → W → ReadResult × W
  Write : fsFile → List GoByte → W → WriteResult × W
  Close : fsFile → W → GoError × W
  gzipNewReader : fsFile → W → (Ptr × GoError) × W
  gzipNewWriterLevel : fsFile → Int → W → (Ptr × GoError) × W
  gzipReaderRead : Ptr → List GoByte → W → ReadResult × W
  gzipReaderClose : Ptr → W → GoError × W
  gzipWriterWrite : Ptr → List GoByte → W → WriteResult × W
  gzipWriterClose : Ptr → W → GoError × W

/-- A call made by the wrapper on an external collaborator. -/
inductive Call where
  | fileRead (f : fsFile) (p : List GoByte)
  | fileWrite (f : fsFile) (p : List GoByte)
  | fileClose (f : fsFile)
  | gzipNewReader (f : fsFile)
  | gzipNewWriterLevel (f : fsFile) (level : Int)
  | gzipReaderRead (z : Ptr) (p : List GoByte)
  | gzipReaderClose (z : Ptr)
  | gzipWriterWrite (z : Ptr) (p : List GoByte)
  | gzipWriterClose (z : Ptr)
  deriving DecidableEq, Repr

/-- A logged call together with the error it returned. -/
structure Event where
  call : Call
  err : GoError
  deriving DecidableEq, Repr

/-- The world together with the log of the calls made so far, oldest first. -/
structure Sys (W : Type) where
  world : W
  trace : List Event

namespace Sys

variable {W : Type}

/-- Append one event to the log and move to the world `w`. -/
def log (s : Sys W) (w : W) (call : Call) (err : GoError) : Sys W :=
  ⟨w, s.trace ++ [⟨call, err⟩]⟩

/-- Logged `f.Read(p)`. -/
def fileRead (env : Env W) (f : fsFile) (p : List GoByte) (s : Sys W) : ReadResult × Sys W :=
  let res := env.Read f p s.world
  (res.1, s.log res.2 (Call.fileRead f p) res.1.err)

/-- Logged `f.Write(p)`. -/
def fileWrite (env : Env W) (f : fsFile) (p : List GoByte) (s : Sys W) : WriteResult × Sys W :=
  let res := env.Write f p s.world
  (res.1, s.log res.2 (Call.fileWrite f p) res.1.err)

/-- Logged `f.Close()`. -/
def fileClose (env : Env W) (f : fsFile) (s : Sys W) : GoError × Sys W :=
  let res := env.Close f s.world
  (res.1, s.log res.2 (Call.fileClose f) res.1)

/-- Logged `gzip.NewReader(f)`. -/
def gzipNewReader (env : Env W) (f : fsFile) (s : Sys W) : (Ptr × GoError) × Sys W :=
  let res := env.gzipNewReader f s.world
  (res.1, s.log res.2 (Call.gzipNewReader f) res.1.2)

/-- Logged `gzip.NewWriterLevel(f, level)`. -/
def gzipNewWriterLevel (env : Env W) (f : fsFile) (level : Int) (s : Sys W) :
    (Ptr × GoError) × Sys W :=
  let res := env.gzipNewWriterLevel f level s.world
  (res.1, s.log res.2 (Call.gzipNewWriterLevel f level) res.1.2)

/-- Logged `z.Read(p)` on a `*gzip.Reader`. -/
def gzipReaderRead (env : Env W) (z : Ptr) (p : List GoByte) (s : Sys W) : ReadResult × Sys W :=
  let res := env.gzipReaderRead z p s.world
  (res.1, s.log res.2 (Call.gzipReaderRead z p) res.1.err)

/-- Logged `z.Close()` on a `*gzip.Reader`. -/
def gzipReaderClose (env : Env W) (z : Ptr) (s : Sys W) : GoError × Sys W :=
  let res := env.gzipReaderClose z s.world
  (res.1, s.log res.2 (Call.gzipReaderClose z) res.1)

/-- Logged `z.Write(p)` on a `*gzip.Writer`. -/
def gzipWriterWrite (env : Env W) (z : Ptr) (p : List GoByte) (s : Sys W) : WriteResult × Sys W :=
  let res := env.gzipWriterWrite z p s.world
  (res.1, s.log res.2 (Call.gzipWriterWrite z p) res.1.err)

/-- Logged `z.Close()` on a `*gzip.Writer`. -/
def gzipWriterClose (env : Env W) (z : Ptr) (s : Sys W) : GoError × Sys W :=
  let res := env.gzipWriterClose z s.world
  (res.1, s.log res.2 (Call.gzipWriterClose z) res.1)

end Sys

/-- How a call ends: it returns a value, or it panics and returns nothing. -/
inductive Outcome (α : Type) where
  | returned (a : α)
  | panicked
  deriving DecidableEq, Repr

/-- A non-nil `io.ReadCloser` interface value as `compressedFile.r` can hold it:
a `*gzip.Reader` (the interface value is non-nil whatever the pointer is) or the
wrapped `fs.File`. -/
inductive ReadCloser where
  | gzipReader (z : Ptr)
  | file (f : fsFile)
  deriving DecidableEq, Repr

/-- A non-nil `io.WriteCloser` interface value as `compressedFile.w` can hold it. -/
inductive WriteCloser where
  | gzipWriter (z : Ptr)
  | file (f : fsFile)
  deriving DecidableEq, Repr

namespace ReadCloser

variable {W : Type}

/-- Dynamic dispatch of `r.Read(p)`. -/
def Read (env : Env W) (r : ReadCloser) (p : List GoByte) (s : Sys W) : ReadResult × Sys W :=
  match r with
  | gzipReader z => Sys.gzipReaderRead env z p s
  | file f => Sys.fileRead env f p s

/-- Dynamic dispatch of `r.Close()`. On the nil `*gzip.Reader` (pointer 0) the
method dereferences its receiver and panics: no object is reached and nothing
is logged. On any other handle the call reaches the object and returns. -/
def Close (env : Env W) (r : ReadCloser) (s : Sys W) : Outcome GoError × Sys W :=
  match r with
  | gzipReader z =>
    if z = 0 then (Outcome.panicked, s)
    else
      let res := Sys.gzipReaderClose env z s
      (Outcome.returned res.1, res.2)
  | file f =>
    let res := Sys.fileClose env f s
    (Outcome.returned res.1, res.2)

/-- The call that `r.Close()` is. -/
def closeCall : ReadCloser → Call
  | gzipReader z => Call.gzipReaderClose z
  | file f => Call.fileClose f

end ReadCloser

namespace WriteCloser

variable {W : Type}

/-- Dynamic dispatch of `w.Write(p)`. -/
def Write (env : Env W) (w : WriteCloser) (p : List GoByte) (s : Sys W) : WriteResult × Sys W :=
  match w with
  | gzipWriter z => Sys.gzipWriterWrite env z p s
  | file f => Sys.fileWrite env f p s

/-- Dynamic dispatch of `w.Close()`. On the nil `*gzip.Writer` (pointer 0) the
method dereferences its receiver and panics: no object is reached and nothing
is logged. On any other handle the call reaches the object and returns. -/
def Close (env : Env W) (w : WriteCloser) (s : Sys W) : Outcome GoError × Sys W :=
  match w with
  | gzipWriter z =>
    if z = 0 then (Outcome.panicked, s)
    else
      let res := Sys.gzipWriterClose env z s
      (Outcome.returned res.1, res.2)
  | file f =>
    let res := Sys.fileClose env f s
    (Outcome.returned res.1, res.2)

/-- The call that `w.Close()` is. -/
def closeCall : WriteCloser → Call
  | gzipWriter z => Call.gzipWriterClose z
  | file f => Call.fileClose f

end WriteCloser

/-! ## The wrapper `compressedFile` -/

/-- Go `type compressedFile struct { fs.File; compressor; r io.ReadCloser; w io.WriteCloser }`.
The fields `r` and `w` are `none` when the Go interface value is `nil`. -/
structure compressedFile where
  File : fsFile
  compressor : compressor
  r : Option ReadCloser
  w : Option WriteCloser
  deriving DecidableEq, Repr

/-- An `fs.File` value as `NewReader` and `NewWriter` return it: the file they
were given, or a pointer to a new `compressedFile`. -/
inductive WrappedFile where
  | plain (f : fsFile)
  | wrapped (c : compressedFile)
  deriving DecidableEq, Repr

/-- Go `func (c compressor) NewReader(f fs.File) fs.File`. -/
def compressor.NewReader (c : compressor) (f : fsFile) : WrappedFile :=
  if c = noCompressor then WrappedFile.plain f
  else WrappedFile.wrapped { File := f, compressor := c, r := none, w := none }

/-- Go `func (c compressor) NewWriter(f fs.File) fs.File`. -/
def compressor.NewWriter (c : compressor) (f : fsFile) : WrappedFile :=
  if c = noCompressor then WrappedFile.plain f
  else WrappedFile.wrapped { File := f, compressor := c, r := none, w := none }

namespace compressedFile

variable {W : Type}

/-- Go `func (c *compressedFile) Name() string`. -/
def Name (env : Env W) (c : compressedFile) (world : W) : GoString :=
  c.compressor.With (env.Name c.File world)

/-- Go `func (c *compressedFile) Read(p []byte) (int, error)`.
In the gzip case `c.r` is assigned the `*gzip.Reader` that `gzip.NewReader`
returned before `err` is tested. -/
def Read (env : Env W) (c : compressedFile) (p : List GoByte) (s : Sys W) :
    ReadResult × compressedFile × Sys W :=
  match c.r with
  | none =>
    if c.compressor = gzipCompressor then
      let res := Sys.gzipNewReader env c.File s
      let c := { c with r := some (ReadCloser.gzipReader res.1.1) }
      let err := res.1.2
      if err ≠ none then
        (⟨0, err, p⟩, c, res.2)
      else
        let rr := ReadCloser.Read env (ReadCloser.gzipReader res.1.1) p res.2
        (rr.1, c, rr.2)
    else
      let c := { c with r := some (ReadCloser.file c.File) }
      let rr := ReadCloser.Read env (ReadCloser.file c.File) p s
      (rr.1, c, rr.2)
  | some r =>
    let rr := ReadCloser.Read env r p s
    (rr.1, c, rr.2)

/-- Go `func (c *compressedFile) Write(p []byte) (int, error)`. -/
def Write (env : Env W) (c : compressedFile) (p : List GoByte) (s : Sys W) :
    WriteResult × compressedFile × Sys W :=
  match c.w with
  | none =>
    if c.compressor = gzipCompressor then
      let res := Sys.gzipNewWriterLevel env c.File gzip.BestSpeed s
      let c := { c with w := some (WriteCloser.gzipWriter res.1.1) }
      let err := res.1.2
      if err ≠ none then
        (⟨0, err⟩, c, res.2)
      else
        let wr := WriteCloser.Write env (WriteCloser.gzipWriter res.1.1) p res.2
        (wr.1, c, wr.2)
    else
      let c := { c with w := some (WriteCloser.file c.File) }
      let wr := WriteCloser.Write env (WriteCloser.file c.File) p s
      (wr.1, c, wr.2)
  | some w =>
    let wr := WriteCloser.Write env w p s
    (wr.1, c, wr.2)

/-- Lines 100 to 104 of `Close`:
`if r != nil { if e := r.Close(); e != nil && err == nil { err = e } }`.
Gives the value of `err` after these lines, or the panic of `r.Close()`. -/
def closeReader (env : Env W) (r : Option ReadCloser) (err : GoError) (s : Sys W) :
    Outcome GoError × Sys W :=
  match r with
  | some r =>
    match ReadCloser.Close env r s with
    | (Outcome.returned e, s) => (Outcome.returned (if e ≠ none ∧ err = none then e else err), s)
    | (Outcome.panicked, s) => (Outcome.panicked, s)
  | none => (Outcome.returned err, s)

/-- Lines 105 to 109 of `Close`:
`if w != nil { if e := w.Close(); e != nil && err == nil { err = e } }`.
Gives the value of `err` after these lines, or the panic of `w.Close()`. -/
def closeWriter (env : Env W) (w : Option WriteCloser) (err : GoError) (s : Sys W) :
    Outcome GoError × Sys W :=
  match w with
  | some w =>
    match WriteCloser.Close env w s with
    | (Outcome.returned e, s) => (Outcome.returned (if e ≠ none ∧ err = none then e else err), s)
    | (Outcome.panicked, s) => (Outcome.panicked, s)
  | none => (Outcome.returned err, s)

/-- Go `func (c *compressedFile) Close() error`. The handles are cleared first
(line 98). `Close` has no `defer` and no `recover`: a panic in `r.Close()` or in
`w.Close()` ends the call there, with the handles cleared and the later closes
not made. -/
def Close (env : Env W) (c : compressedFile) (s : Sys W) :
    Outcome GoError × compressedFile × Sys W :=
  let r := c.r
  let w := c.w
  let c := { c with r := none, w := none }
  let err : GoError := none
  match closeReader env r err s with
  | (Outcome.panicked, s) => (Outcome.panicked, c, s)
  | (Outcome.returned err, s) =>
    match closeWriter env w err s with
    | (Outcome.panicked, s) => (Outcome.panicked, c, s)
    | (Outcome.returned err, s) =>
      let res := Sys.fileClose env c.File s
      let e := res.1
      (Outcome.returned (if e ≠ none ∧ err = none then e else err), c, res.2)

end compressedFile

/-- One method call on a wrapper. -/
inductive Op where
  | read (p : List GoByte)
  | write (p : List GoByte)
  | close
  deriving DecidableEq, Repr

namespace compressedFile

variable {W : Type}

/-- The effect of one method call on the wrapper and on the system. -/
def step (env : Env W) (cs : compressedFile × Sys W) (op : Op) : compressedFile × Sys W :=
  match op with
  | Op.read p => (Read env cs.1 p cs.2).2
  | Op.write p => (Write env cs.1 p cs.2).2
  | Op.close => (Close env cs.1 cs.2).2

/-- The effect of a sequence of method calls, first to last. -/
def run (env : Env W) (cs : compressedFile × Sys W) (ops : List Op) : compressedFile × Sys W :=
  ops.foldl (step env) cs

end compressedFile

/-- The calls logged in `t`, without their results. -/
def calls (t : List Event) : List Call := t.map Event.call

/-- The first non-nil error among the logged results. -/
def firstError (t : List Event) : GoError := (t.filterMap Event.err).head?

/-- Interface dispatch of `Name()` on the value `NewReader` or `NewWriter` returned. -/
def WrappedFile.Name {W : Type} (env : Env W) (wf : WrappedFile) (world : W) : GoString :=
  match wf with
  | WrappedFile.plain f => env.Name f world
  | WrappedFile.wrapped c => c.Name env world

/-- Whether a call is `gzip.NewReader`. -/
def Call.isNewReader : Call → Bool
  | Call.gzipNewReader _ => true
  | _ => false

/-- Whether a call is `gzip.NewWriterLevel`. -/
def Call.isNewWriter : Call → Bool
  | Call.gzipNewWriterLevel _ _ => true
  | _ => false

/-- Whether a call is on the gzip package: a constructor or a method of a gzip
reader or writer. -/
def Call.isCodec : Call → Bool
  | Call.fileRead _ _ => false
  | Call.fileWrite _ _ => false
  | Call.fileClose _ => false
  | _ => true

/-! ## An ideal streaming codec, to state the round trip

The gzip package is outside the repository. To state what is read back after
a write, the codec is taken as a pair of functions: `enc` gives the bytes the
writer has put into the file once it is closed, from the chunks it was written,
and `dec` gives the plain bytes of a stored stream, or the error that binding
a reader over it reports. -/

/-- Go `io.EOF`, as an error token. -/
def errEOF : Nat := 0

/-- Go `gzip.ErrHeader`, as an error token. -/
def errHeader : Nat := 1

/-- The error token of a call on a reader or writer that does not exist. -/
def errInvalid : Nat := 2

/-- Go `os.ErrClosed`, as an error token: the file was already closed. -/
def errClosed : Nat := 3

/-- A codec: what a closed writer has emitted for the chunks written to it, and
what binding a reader over stored bytes gives. -/
structure Codec where
  enc : List (List GoByte) → List GoByte
  dec : List GoByte → Except Nat (List GoByte)

/-- The world of the ideal codec: the bytes the file holds, the read position of
the open handle, whether the handle was closed, the chunks the open gzip writer
has accepted, and the plain bytes the open gzip reader has still to deliver. -/
structure CodecWorld where
  file : List GoByte
  pos : Nat
  closed : Bool
  wbuf : Option (List (List GoByte))
  rbuf : Option (List GoByte)
  deriving DecidableEq, Repr

/-- A newly created, empty file. -/
def CodecWorld.empty : CodecWorld := ⟨[], 0, false, none, none⟩

/-- The same bytes behind a newly opened handle: position 0, no codec object. -/
def CodecWorld.reopen (w : CodecWorld) : CodecWorld := ⟨w.file, 0, false, none, none⟩

/-- A `Read` of up to `len(p)` bytes out of `src`: the count, `io.EOF` when `src`
is exhausted, and the buffer with its first bytes overwritten. -/
def readFrom (src p : List GoByte) : ReadResult :=
  if src = [] then ⟨0, some errEOF, p⟩
  else ⟨(min p.length src.length : Nat), none, src.take p.length ++ p.drop src.length⟩

/-- The environment of the ideal codec `k`. A file read delivers the stored bytes
from the read position, a file write appends, and after `Close` every call on
the file fails with `os.ErrClosed`. `gzip.NewReader` decodes what is stored from
the read position and fails with the error `dec` gives; the reader then delivers
the plain bytes. The writer collects the chunks written to it and on `Close`
writes `enc` of them to the file, which fails when the file is closed. -/
def codecEnv (k : Codec) : Env CodecWorld where
  Name := fun _ _ => []
  Read := fun _ p w =>
    if w.closed then (⟨0, some errClosed, p⟩, w)
    else (readFrom (w.file.drop w.pos) p,
      { w with pos := w.pos + min p.length (w.file.length - w.pos) })
  Write := fun _ p w =>
    if w.closed then (⟨0, some errClosed⟩, w)
    else (⟨p.length, none⟩, { w with file := w.file ++ p })
  Close := fun _ w =>
    if w.closed then (some errClosed, w)
    else (none, { w with closed := true })
  gzipNewReader := fun _ w =>
    if w.closed then ((0, some errClosed), w)
    else
      match k.dec (w.file.drop w.pos) with
      | Except.ok plain => ((1, none), { w with pos := w.file.length, rbuf := some plain })
      | Except.error e => ((0, some e), w)
  gzipNewWriterLevel := fun _ _ w => ((1, none), { w with wbuf := some [] })
  gzipReaderRead := fun _ p w =>
    match w.rbuf with
    | some plain => (readFrom plain p, { w with rbuf := some (plain.drop p.length) })
    | none => (⟨0, some errInvalid, p⟩, w)
  gzipReaderClose := fun _ w => (none, { w with rbuf := none })
  gzipWriterWrite := fun _ p w =>
    match w.wbuf with
    | some cs => (⟨p.length, none⟩, { w with wbuf := some (cs ++ [p]) })
    | none => (⟨0, some errInvalid⟩, w)
  gzipWriterClose := fun _ w =>
    match w.wbuf with
    | some cs =>
      if w.closed then (some errClosed, { w with wbuf := none })
      else (none, { w with file := w.file ++ k.enc cs, wbuf := none })
    | none => (some errInvalid, w)

/-- Read a wrapper to the end of the stream, as Go `io.ReadAll` does with a buffer
of `size` bytes: call `Read` until it returns an error, collecting the first `n`
bytes of the buffer each time. Gives the bytes and the error that ended the
loop, or `none` when `fuel` calls were not enough. -/
def readAll {W : Type} (env : Env W) (size : Nat) :
    Nat → compressedFile → Sys W → List GoByte → Option (List GoByte × GoError)
  | 0, _, _, _ => none
  | fuel + 1, c, s, acc =>
    let res := c.Read env (List.replicate size 0) s
    let acc := acc ++ res.1.buf.take res.1.n.toNat
    if res.1.err ≠ none then some (acc, res.1.err)
    else readAll env size fuel res.2.1 res.2.2 acc

/-- A small codec: a stream is the two gzip magic bytes followed by the plain
bytes. Empty input is reported as `io.EOF`, as Go's gzip reader does, and any
other input without the magic bytes as `gzip.ErrHeader`. -/
def toyCodec : Codec where
  enc := fun cs => 31 :: 139 :: cs.flatten
  dec := fun b =>
    match b with
    | [] => Except.error errEOF
    | 31 :: 139 :: rest => Except.ok rest
    | _ => Except.error errHeader

/-! ## Suffix lemmas -/

theorem strings.HasSuffix_append (q t : GoString) :
    strings.HasSuffix (q ++ t) t = true := by
  simp [strings.HasSuffix]

theorem strings.HasSuffix_split {s t : GoString} (h : strings.HasSuffix s t = true) :
    s = s.take (s.length - t.length) ++ t := by
  simp only [strings.HasSuffix, Bool.and_eq_true, beq_iff_eq] at h
  have h2 := List.take_append_drop (s.length - t.length) s
  rw [h.2] at h2
  exact h2.symm

theorem strings.HasSuffix_iff (s t : GoString) :
    strings.HasSuffix s t = true ↔ ∃ q, s = q ++ t :=
  ⟨fun h => ⟨_, strings.HasSuffix_split h⟩,
   fun ⟨q, hq⟩ => hq ▸ strings.HasSuffix_append q t⟩

theorem strings.HasSuffix_iff_isSuffix (s t : GoString) :
    strings.HasSuffix s t = true ↔ t <:+ s := by
  rw [strings.HasSuffix_iff]
  constructor
  · rintro ⟨q, rfl⟩
    exact List.suffix_append q t
  · rintro ⟨q, rfl⟩
    exact ⟨q, rfl⟩

theorem strings.TrimSuffix_append (q t : GoString) :
    strings.TrimSuffix (q ++ t) t = q := by
  simp [strings.TrimSuffix, strings.HasSuffix_append]

theorem strings.TrimSuffix_of_not {s t : GoString} (h : strings.HasSuffix s t = false) :
    strings.TrimSuffix s t = s := by
  simp [strings.TrimSuffix, h]

theorem strings.TrimSuffix_nil (s : GoString) : strings.TrimSuffix s [] = s := by
  have := strings.TrimSuffix_append s []
  simpa using this

theorem strings.TrimSuffix_eq_self_iff (s : GoString) {t : GoString} (ht : t ≠ []) :
    strings.TrimSuffix s t = s ↔ strings.HasSuffix s t = false := by
  constructor
  · intro h
    cases hs : strings.HasSuffix s t with
    | false => rfl
    | true =>
      exfalso
      have hlen := congrArg List.length h
      have hsplit := congrArg List.length (strings.HasSuffix_split hs)
      simp only [strings.TrimSuffix, hs, if_true] at hlen
      rw [List.length_append, hlen] at hsplit
      have : 0 < t.length := List.length_pos.mpr ht
      omega
  · exact strings.TrimSuffix_of_not

theorem suffix_append_right_iff (t q g : GoString) :
    t ++ g <:+ q ++ g ↔ t <:+ q := by
  constructor
  · rintro ⟨r, hr⟩
    rw [← List.append_assoc] at hr
    exact ⟨r, List.append_cancel_right hr⟩
  · rintro ⟨r, rfl⟩
    exact ⟨r, by rw [List.append_assoc]⟩

theorem gzip_str_eq : gzipCompressor.str = ascii ".gzip" := by decide

theorem gzip_ne_no : gzipCompressor ≠ noCompressor := by decide

theorem gzip_With (p : GoString) :
    gzipCompressor.With p =
      if strings.HasSuffix p gzipCompressor.str then p else p ++ gzipCompressor.str := by
  have h : ¬ gzipCompressor = ⟨[]⟩ := by decide
  simp only [compressor.With, h, if_false]

theorem no_With (p : GoString) : noCompressor.With p = p := by
  simp [compressor.With, noCompressor]

theorem no_Bare (p : GoString) : noCompressor.Bare p = p :=
  strings.TrimSuffix_nil p

theorem not_HasSuffix_iff (s t : GoString) :
    strings.HasSuffix s t = false ↔ ¬ t <:+ s := by
  rw [← strings.HasSuffix_iff_isSuffix, Bool.not_eq_true]

example : ascii ".gzip" = gzipCompressor.str := by decide
example : ¬ ascii ".gzip" <:+ ascii "segment" := by decide
example : gzipCompressor.Bare (ascii "a.gzip.gzip") = ascii "a.gzip" := by decide
example : gzipCompressor.Bare (gzipCompressor.Bare (ascii "a.gzip.gzip")) = ascii "a" := by decide
example : gzipCompressor.With (ascii "a") = ascii "a.gzip" := by decide
example : gzipCompressor.With (ascii "a.gzip") = ascii "a.gzip" := by decide
example : noCompressor.From (ascii "segment.gzip") = gzipCompressor := by decide
example : noCompressor.From (ascii "segment.log") = noCompressor := by decide

/-! ## The suffix functions of `compressor` -/

/-- C1 (as stated, refuted): `Bare` is not idempotent for the gzip variant. On
`segment.gzip.gzip` the first application gives `segment.gzip` and the second
gives `segment`. -/
theorem Bare_idempotent_counterexample :
    ¬ ∀ (c : compressor) (p : GoString), (c = noCompressor ∨ c = gzipCompressor) →
        c.Bare (c.Bare p) = c.Bare p := by
  intro h
  have h1 := h gzipCompressor (ascii "segment.gzip.gzip") (Or.inr rfl)
  revert h1
  decide

/-- C1 (amended): `noCompressor.Bare` is idempotent on every path, and
`gzipCompressor.Bare` applied twice equals applied once exactly on the paths
that do not end in `.gzip.gzip`. -/
theorem Bare_idempotent_amended (p : GoString) :
    noCompressor.Bare (noCompressor.Bare p) = noCompressor.Bare p ∧
    (gzipCompressor.Bare (gzipCompressor.Bare p) = gzipCompressor.Bare p ↔
      ¬ ascii ".gzip.gzip" <:+ p) := by
  refine ⟨by rw [no_Bare, no_Bare], ?_⟩
  have hne : gzipCompressor.str ≠ [] := by decide
  have hgg : ascii ".gzip.gzip" = gzipCompressor.str ++ gzipCompressor.str := by decide
  unfold compressor.Bare
  rw [strings.TrimSuffix_eq_self_iff _ hne, not_HasSuffix_iff, hgg]
  cases hs : strings.HasSuffix p gzipCompressor.str with
  | false =>
    rw [strings.TrimSuffix_of_not hs]
    rw [not_HasSuffix_iff] at hs
    constructor
    · intro _ hgg2
      exact hs ((List.suffix_append _ _).trans hgg2)
    · intro _
      exact hs
  | true =>
    obtain ⟨q, rfl⟩ := (strings.HasSuffix_iff _ _).mp hs
    rw [strings.TrimSuffix_append, suffix_append_right_iff]

/-- C2: for `c` one of the two variants and a path `p` that does not end in
`.gzip`, stripping the suffix after appending it gives `p` back. -/
theorem Bare_With_roundtrip (c : compressor) (p : GoString)
    (hc : c = noCompressor ∨ c = gzipCompressor) (hp : ¬ ascii ".gzip" <:+ p) :
    c.Bare (c.With p) = p := by
  rcases hc with rfl | rfl
  · rw [no_With, no_Bare]
  · rw [← gzip_str_eq, ← not_HasSuffix_iff] at hp
    rw [gzip_With, hp]
    exact strings.TrimSuffix_append p _

/-- C2 at the gzip variant and the path `segment`. -/
theorem Bare_With_roundtrip_witness :
    gzipCompressor.Bare (gzipCompressor.With (ascii "segment")) = ascii "segment" :=
  Bare_With_roundtrip gzipCompressor (ascii "segment") (Or.inr rfl) (by decide)

/-- C3: `With` never appends its suffix twice, `c.With (c.With p) = c.With p`; this
holds for every value of the `compressor` type, so for both variants. -/
theorem With_idempotent (c : compressor) (p : GoString) :
    c.With (c.With p) = c.With p := by
  unfold compressor.With
  by_cases hc : c = ⟨[]⟩
  · simp [hc]
  · simp only [hc, if_false]
    cases hs : strings.HasSuffix p c.str with
    | true => simp [hs]
    | false => simp [strings.HasSuffix_append]

/-- C4: for a variant `c` other than `noCompressor` and every path `p`, detection
on the name `c.With p` gives `c` back, on whatever receiver `From` is called. -/
theorem From_With (recv c : compressor) (p : GoString)
    (hc : c = noCompressor ∨ c = gzipCompressor) (hne : c ≠ noCompressor) :
    recv.From (c.With p) = c := by
  rcases hc with rfl | rfl
  · exact absurd rfl hne
  · unfold compressor.From
    rw [gzip_With]
    cases hs : strings.HasSuffix p gzipCompressor.str with
    | true => simp [hs]
    | false => simp [strings.HasSuffix_append]

/-- C4 at the gzip variant, receiver `noCompressor`, and the path `segment`. -/
theorem From_With_witness :
    noCompressor.From (gzipCompressor.With (ascii "segment")) = gzipCompressor :=
  From_With noCompressor gzipCompressor (ascii "segment") (Or.inr rfl) (by decide)

/-- C8: on every receiver, `From p` is the gzip variant when `p` ends with `.gzip`
and `noCompressor` otherwise; `segment.gzip` is detected as gzip and
`segment.log` as `noCompressor`. -/
theorem From_spec (recv : compressor) (p : GoString) :
    recv.From p = (if ascii ".gzip" <:+ p then gzipCompressor else noCompressor) ∧
    recv.From (ascii "segment.gzip") = gzipCompressor ∧
    recv.From (ascii "segment.log") = noCompressor := by
  refine ⟨?_, ?_, ?_⟩
  rotate_left
  · show noCompressor.From (ascii "segment.gzip") = gzipCompressor
    decide
  · show noCompressor.From (ascii "segment.log") = noCompressor
    decide
  unfold compressor.From
  rw [← gzip_str_eq]
  cases hs : strings.HasSuffix p gzipCompressor.str with
  | true =>
    rw [if_pos ((strings.HasSuffix_iff_isSuffix _ _).mp hs)]
    simp
  | false =>
    rw [if_neg ((not_HasSuffix_iff _ _).mp hs)]
    simp

/-- C9: `noCompressor.With p = p`; `gzipCompressor.With p` is `p` when `p` already
ends with `.gzip` and `p ++ ".gzip"` otherwise; the extensions are `""` and
`.gzip`, and `c.With p` always ends with `c.Ext`. -/
theorem With_spec (c : compressor) (p : GoString) :
    noCompressor.With p = p ∧
    gzipCompressor.With p = (if ascii ".gzip" <:+ p then p else p ++ ascii ".gzip") ∧
    noCompressor.Ext = ascii "" ∧ gzipCompressor.Ext = ascii ".gzip" ∧
    c.Ext <:+ c.With p := by
  refine ⟨no_With p, ?_, by decide, by decide, ?_⟩
  · rw [gzip_With, ← gzip_str_eq]
    cases hs : strings.HasSuffix p gzipCompressor.str with
    | true =>
      rw [if_pos ((strings.HasSuffix_iff_isSuffix _ _).mp hs)]
      simp
    | false =>
      rw [if_neg ((not_HasSuffix_iff _ _).mp hs)]
      simp
  · unfold compressor.With compressor.Ext
    by_cases hc : c = ⟨[]⟩
    · subst hc
      simp
    · simp only [hc, if_false]
      cases hs : strings.HasSuffix p c.str with
      | true => simpa using (strings.HasSuffix_iff_isSuffix _ _).mp hs
      | false => simp

/-- C10: `noCompressor.Bare p = p`; `gzipCompressor.Bare (q ++ ".gzip") = q` for
every `q`; and `gzipCompressor.Bare p = p` whenever `p` does not end with `.gzip`
(and only then). -/
theorem Bare_spec (p q : GoString) :
    noCompressor.Bare p = p ∧
    gzipCompressor.Bare (q ++ ascii ".gzip") = q ∧
    (gzipCompressor.Bare p = p ↔ ¬ ascii ".gzip" <:+ p) := by
  refine ⟨no_Bare p, ?_, ?_⟩
  · rw [← gzip_str_eq]
    exact strings.TrimSuffix_append q _
  · have hne : gzipCompressor.str ≠ [] := by decide
    unfold compressor.Bare
    rw [strings.TrimSuffix_eq_self_iff _ hne, not_HasSuffix_iff, gzip_str_eq]

/-! ## `compressedFile.Close` -/

section CloseLemmas

variable {W : Type}

theorem Sys.fileClose_trace (env : Env W) (f : fsFile) (s : Sys W) :
    (Sys.fileClose env f s).2.trace = s.trace ++ [⟨Call.fileClose f, (Sys.fileClose env f s).1⟩] :=
  rfl

theorem firstError_cons (ev : Event) (t : List Event) :
    firstError (ev :: t) = if ev.err ≠ none then ev.err else firstError t := by
  unfold firstError
  cases h : ev.err <;> simp [List.filterMap_cons, h]

theorem firstError_append (a b : List Event) :
    firstError (a ++ b) = (firstError a).or (firstError b) := by
  simp [firstError, List.filterMap_append, List.head?_append]

theorem readCloser_Close_nil (env : Env W) (s : Sys W) :
    ReadCloser.Close env (ReadCloser.gzipReader 0) s = (Outcome.panicked, s) := rfl

theorem writeCloser_Close_nil (env : Env W) (s : Sys W) :
    WriteCloser.Close env (WriteCloser.gzipWriter 0) s = (Outcome.panicked, s) := rfl

theorem readCloser_Close_live (env : Env W) (r : ReadCloser) (s : Sys W)
    (h : r ≠ ReadCloser.gzipReader 0) :
    ∃ (e : GoError) (world : W),
      r.Close env s = (Outcome.returned e, ⟨world, s.trace ++ [⟨r.closeCall, e⟩]⟩) := by
  cases r with
  | gzipReader z =>
    have hz : z ≠ 0 := fun hz => h (by rw [hz])
    refine ⟨(env.gzipReaderClose z s.world).1, (env.gzipReaderClose z s.world).2, ?_⟩
    simp [ReadCloser.Close, hz, Sys.gzipReaderClose, Sys.log, ReadCloser.closeCall]
  | file g =>
    refine ⟨(env.Close g s.world).1, (env.Close g s.world).2, ?_⟩
    simp [ReadCloser.Close, Sys.fileClose, Sys.log, ReadCloser.closeCall]

theorem writeCloser_Close_live (env : Env W) (w : WriteCloser) (s : Sys W)
    (h : w ≠ WriteCloser.gzipWriter 0) :
    ∃ (e : GoError) (world : W),
      w.Close env s = (Outcome.returned e, ⟨world, s.trace ++ [⟨w.closeCall, e⟩]⟩) := by
  cases w with
  | gzipWriter z =>
    have hz : z ≠ 0 := fun hz => h (by rw [hz])
    refine ⟨(env.gzipWriterClose z s.world).1, (env.gzipWriterClose z s.world).2, ?_⟩
    simp [WriteCloser.Close, hz, Sys.gzipWriterClose, Sys.log, WriteCloser.closeCall]
  | file g =>
    refine ⟨(env.Close g s.world).1, (env.Close g s.world).2, ?_⟩
    simp [WriteCloser.Close, Sys.fileClose, Sys.log, WriteCloser.closeCall]

theorem closeReader_live (env : Env W) (r : Option ReadCloser) (err : GoError) (s : Sys W)
    (h : r ≠ some (ReadCloser.gzipReader 0)) :
    ∃ added : List Event,
      (compressedFile.closeReader env r err s).2.trace = s.trace ++ added ∧
      calls added = r.toList.map ReadCloser.closeCall ∧
      (compressedFile.closeReader env r err s).1 =
        Outcome.returned (if err = none then firstError added else err) := by
  cases r with
  | none => exact ⟨[], by cases err <;> simp [compressedFile.closeReader, calls, firstError]⟩
  | some r0 =>
    obtain ⟨e, world, he⟩ := readCloser_Close_live env r0 s (fun hr => h (by rw [hr]))
    refine ⟨[⟨r0.closeCall, e⟩], ?_⟩
    cases err <;> cases e <;> simp [compressedFile.closeReader, he, calls, firstError]

theorem closeWriter_live (env : Env W) (w : Option WriteCloser) (err : GoError) (s : Sys W)
    (h : w ≠ some (WriteCloser.gzipWriter 0)) :
    ∃ added : List Event,
      (compressedFile.closeWriter env w err s).2.trace = s.trace ++ added ∧
      calls added = w.toList.map WriteCloser.closeCall ∧
      (compressedFile.closeWriter env w err s).1 =
        Outcome.returned (if err = none then firstError added else err) := by
  cases w with
  | none => exact ⟨[], by cases err <;> simp [compressedFile.closeWriter, calls, firstError]⟩
  | some w0 =>
    obtain ⟨e, world, he⟩ := writeCloser_Close_live env w0 s (fun hw => h (by rw [hw]))
    refine ⟨[⟨w0.closeCall, e⟩], ?_⟩
    cases err <;> cases e <;> simp [compressedFile.closeWriter, he, calls, firstError]

theorem Close_state (env : Env W) (c : compressedFile) (s : Sys W) :
    (c.Close env s).2.1 = ⟨c.File, c.compressor, none, none⟩ := by
  unfold compressedFile.Close
  simp only
  split
  · rfl
  · split <;> rfl

theorem Close_unbound (env : Env W) (f : fsFile) (k : compressor) (s : Sys W) :
    compressedFile.Close env ⟨f, k, none, none⟩ s =
      (Outcome.returned (env.Close f s.world).1, ⟨f, k, none, none⟩,
        ⟨(env.Close f s.world).2, s.trace ++ [⟨Call.fileClose f, (env.Close f s.world).1⟩]⟩) := by
  simp only [compressedFile.Close, compressedFile.closeReader, compressedFile.closeWriter,
    Sys.fileClose, Sys.log]
  cases (env.Close f s.world).1 <;> simp

theorem Close_nil_reader (env : Env W) (f : fsFile) (k : compressor) (w : Option WriteCloser)
    (s : Sys W) :
    compressedFile.Close env ⟨f, k, some (ReadCloser.gzipReader 0), w⟩ s =
      (Outcome.panicked, ⟨f, k, none, none⟩, s) := rfl

/-- On a wrapper neither handle of which is a nil gzip pointer, `Close` returns:
its calls are the reader close, the writer close and the file close, in this
order, and it returns the first non-nil error among their results. -/
theorem Close_live (env : Env W) (c : compressedFile) (s : Sys W)
    (hr : c.r ≠ some (ReadCloser.gzipReader 0)) (hw : c.w ≠ some (WriteCloser.gzipWriter 0)) :
    ∃ added : List Event,
      (c.Close env s).2.2.trace = s.trace ++ added ∧
      calls added =
        c.r.toList.map ReadCloser.closeCall ++ c.w.toList.map WriteCloser.closeCall ++
          [Call.fileClose c.File] ∧
      (c.Close env s).1 = Outcome.returned (firstError added) := by
  obtain ⟨f, k, r, w⟩ := c
  simp only at hr hw
  obtain ⟨a1, ht1, hc1, ho1⟩ := closeReader_live env r none s hr
  rw [if_pos rfl] at ho1
  generalize hR1 : compressedFile.closeReader env r none s = R1 at ht1 ho1
  obtain ⟨o1, S1⟩ := R1
  simp only at ht1 ho1
  subst ho1
  obtain ⟨a2, ht2, hc2, ho2⟩ := closeWriter_live env w (firstError a1) S1 hw
  generalize hR2 : compressedFile.closeWriter env w (firstError a1) S1 = R2 at ht2 ho2
  obtain ⟨o2, S2⟩ := R2
  simp only at ht2 ho2
  subst ho2
  refine ⟨a1 ++ a2 ++ [⟨Call.fileClose f, (Sys.fileClose env f S2).1⟩], ?_, ?_, ?_⟩
  · simp [compressedFile.Close, hR1, hR2, Sys.fileClose_trace, ht2, ht1]
  · have hc : ∀ a b : List Event, calls (a ++ b) = calls a ++ calls b := fun a b => by
      simp [calls]
    rw [hc, hc, hc1, hc2]
    rfl
  · simp only [compressedFile.Close, hR1, hR2]
    rw [firstError_append, firstError_append]
    generalize (Sys.fileClose env f S2).1 = e3
    generalize firstError a1 = e1
    generalize firstError a2 = e2
    cases e1 <;> cases e2 <;> cases e3 <;> simp [firstError]

theorem Close_calls_live (env : Env W) (c : compressedFile) (s : Sys W)
    (hr : c.r ≠ some (ReadCloser.gzipReader 0)) (hw : c.w ≠ some (WriteCloser.gzipWriter 0)) :
    calls (c.Close env s).2.2.trace =
      calls s.trace ++
        (c.r.toList.map ReadCloser.closeCall ++ c.w.toList.map WriteCloser.closeCall ++
          [Call.fileClose c.File]) := by
  obtain ⟨added, ht, hc, _⟩ := Close_live env c s hr hw
  rw [ht, ← hc]
  simp [calls]

end CloseLemmas

example : firstError [⟨Call.fileClose 0, none⟩, ⟨Call.fileClose 0, some 3⟩,
    ⟨Call.fileClose 0, some 4⟩] = some 3 := by
  decide

/-! ## Names, detection and stripping: further properties -/

theorem gzip_With_isSuffix (p : GoString) :
    gzipCompressor.With p = (if ascii ".gzip" <:+ p then p else p ++ ascii ".gzip") := by
  rw [gzip_With, ← gzip_str_eq]
  cases hs : strings.HasSuffix p gzipCompressor.str with
  | true =>
    rw [if_pos ((strings.HasSuffix_iff_isSuffix _ _).mp hs)]
    simp
  | false =>
    rw [if_neg ((not_HasSuffix_iff _ _).mp hs)]
    simp

theorem gzip_NewReader (f : fsFile) :
    gzipCompressor.NewReader f = WrappedFile.wrapped ⟨f, gzipCompressor, none, none⟩ := by
  simp [compressor.NewReader, gzip_ne_no]

theorem gzip_NewWriter (f : fsFile) :
    gzipCompressor.NewWriter f = WrappedFile.wrapped ⟨f, gzipCompressor, none, none⟩ := by
  simp [compressor.NewWriter, gzip_ne_no]

theorem NewReader_Name {W : Type} (env : Env W) (c : compressor) (f : fsFile) (world : W) :
    (c.NewReader f).Name env world = c.With (env.Name f world) := by
  unfold compressor.NewReader
  by_cases hc : c = noCompressor
  · subst hc
    rw [if_pos rfl, no_With]
    rfl
  · rw [if_neg hc]
    rfl

theorem NewWriter_Name {W : Type} (env : Env W) (c : compressor) (f : fsFile) (world : W) :
    (c.NewWriter f).Name env world = c.With (env.Name f world) := by
  unfold compressor.NewWriter
  by_cases hc : c = noCompressor
  · subst hc
    rw [if_pos rfl, no_With]
    rfl
  · rw [if_neg hc]
    rfl

/-- C11: for every compressor value `c`, so for both variants, and every file `f`,
the file returned by `c.NewReader f` and by `c.NewWriter f` has the name
`c.With (f.Name())`. For `noCompressor` the file returned is `f` itself and the
name is `f.Name()`; for the gzip variant the name is `f.Name()` when that already
ends with `.gzip` and `f.Name()` followed by `.gzip` otherwise. -/
theorem Name_reflects_variant {W : Type} (env : Env W) (c : compressor) (f : fsFile)
    (world : W) :
    (c.NewReader f).Name env world = c.With (env.Name f world) ∧
    (c.NewWriter f).Name env world = c.With (env.Name f world) ∧
    noCompressor.NewReader f = WrappedFile.plain f ∧
    noCompressor.NewWriter f = WrappedFile.plain f ∧
    (noCompressor.NewReader f).Name env world = env.Name f world ∧
    (noCompressor.NewWriter f).Name env world = env.Name f world ∧
    (gzipCompressor.NewReader f).Name env world =
      (if ascii ".gzip" <:+ env.Name f world then env.Name f world
        else env.Name f world ++ ascii ".gzip") ∧
    (gzipCompressor.NewWriter f).Name env world =
      (if ascii ".gzip" <:+ env.Name f world then env.Name f world
        else env.Name f world ++ ascii ".gzip") := by
  refine ⟨NewReader_Name env c f world, NewWriter_Name env c f world, rfl, rfl, rfl, rfl, ?_, ?_⟩
  · rw [NewReader_Name, gzip_With_isSuffix]
  · rw [NewWriter_Name, gzip_With_isSuffix]

/-- C15 (as stated, refuted): for the gzip variant, stripping after appending does
not give back a path that already ends in `.gzip`: `With` leaves `segment.gzip`
as it is and `Bare` then gives `segment`. -/
theorem Bare_With_gzip_counterexample :
    ¬ ∀ p : GoString, gzipCompressor.Bare (gzipCompressor.With p) = p := by
  intro h
  have h1 := h (ascii "segment.gzip")
  revert h1
  decide

/-- C15 (amended): `noCompressor.Bare (noCompressor.With p) = p` for every path;
for the gzip variant `Bare (With p) = p` exactly when `p` does not end in
`.gzip`, and on a path `q ++ ".gzip"` the result is `q`. -/
theorem Bare_With_amended (p q : GoString) :
    noCompressor.Bare (noCompressor.With p) = p ∧
    (gzipCompressor.Bare (gzipCompressor.With p) = p ↔ ¬ ascii ".gzip" <:+ p) ∧
    gzipCompressor.Bare (gzipCompressor.With (q ++ ascii ".gzip")) = q := by
  have hne : gzipCompressor.str ≠ [] := by decide
  refine ⟨by rw [no_With, no_Bare], ?_, ?_⟩
  · rw [gzip_With]
    cases hs : strings.HasSuffix p gzipCompressor.str with
    | true =>
      have hs2 : ascii ".gzip" <:+ p := by
        rw [← gzip_str_eq]
        exact (strings.HasSuffix_iff_isSuffix _ _).mp hs
      simp only [if_true, compressor.Bare]
      rw [strings.TrimSuffix_eq_self_iff _ hne, hs]
      simp [hs2]
    | false =>
      have hs2 : ¬ ascii ".gzip" <:+ p := by
        rw [← gzip_str_eq]
        exact (not_HasSuffix_iff _ _).mp hs
      simp only [Bool.false_eq_true, if_false, compressor.Bare]
      rw [strings.TrimSuffix_append]
      simp [hs2]
  · rw [gzip_With, ← gzip_str_eq, strings.HasSuffix_append, if_pos rfl]
    exact strings.TrimSuffix_append q _

/-- C20: on every receiver and for every path `p`, the variant detected from `p`
already names `p`: `(From p).With p = p`, and `(From p).Ext` is a suffix of `p`. -/
theorem From_agrees_with_naming (recv : compressor) (p : GoString) :
    (recv.From p).With p = p ∧ (recv.From p).Ext <:+ p := by
  unfold compressor.From
  cases hs : strings.HasSuffix p gzipCompressor.str with
  | true =>
    simp only [if_true]
    refine ⟨?_, (strings.HasSuffix_iff_isSuffix _ _).mp hs⟩
    rw [gzip_With, hs, if_pos rfl]
  | false =>
    simp only [Bool.false_eq_true, if_false]
    exact ⟨no_With p, List.nil_suffix⟩

/-! ## `compressedFile.Read` and `compressedFile.Write` -/

/-- C12: on a gzip-variant wrapper with no reader bound, when `gzip.NewReader` over
the file returns an error, `Read` returns the count 0 with that error and leaves
the buffer as it was, and the only call it makes is `gzip.NewReader`: no `Read`
is delegated. -/
theorem Read_bind_failure {W : Type} (env : Env W) (c : compressedFile) (p : List GoByte)
    (s : Sys W) (hk : c.compressor = gzipCompressor) (hr : c.r = none)
    (hfail : (env.gzipNewReader c.File s.world).1.2 ≠ none) :
    (c.Read env p s).1 = ⟨0, (env.gzipNewReader c.File s.world).1.2, p⟩ ∧
    (c.Read env p s).2.2.trace =
      s.trace ++ [⟨Call.gzipNewReader c.File, (env.gzipNewReader c.File s.world).1.2⟩] := by
  obtain ⟨f, k, r, w⟩ := c
  simp only at hk hr hfail
  subst hk hr
  have h2 : (Sys.gzipNewReader env f s).1.2 ≠ none := hfail
  simp only [compressedFile.Read, if_true, h2, ne_eq, not_false_eq_true]
  exact ⟨rfl, rfl⟩

/-- C12 at the toy codec, over a file holding the bytes 1, 2, 3, which are not a
stream: `Read` gives 0 and `gzip.ErrHeader`. -/
theorem Read_bind_failure_witness :
    (compressedFile.Read (codecEnv toyCodec) ⟨7, gzipCompressor, none, none⟩ [0, 0]
        ⟨⟨[1, 2, 3], 0, false, none, none⟩, []⟩).1 = ⟨0, some errHeader, [0, 0]⟩ ∧
    (compressedFile.Read (codecEnv toyCodec) ⟨7, gzipCompressor, none, none⟩ [0, 0]
        ⟨⟨[1, 2, 3], 0, false, none, none⟩, []⟩).2.2.trace =
      [] ++ [⟨Call.gzipNewReader 7, some errHeader⟩] :=
  Read_bind_failure (codecEnv toyCodec) ⟨7, gzipCompressor, none, none⟩ [0, 0]
    ⟨⟨[1, 2, 3], 0, false, none, none⟩, []⟩ rfl rfl (by decide)

section Binding

variable {W : Type}

theorem Read_bound (env : Env W) (f : fsFile) (k : compressor) (r0 : ReadCloser)
    (w : Option WriteCloser) (p : List GoByte) (s : Sys W) :
    compressedFile.Read env ⟨f, k, some r0, w⟩ p s =
      ((r0.Read env p s).1, ⟨f, k, some r0, w⟩, (r0.Read env p s).2) := rfl

theorem Write_bound (env : Env W) (f : fsFile) (k : compressor) (r : Option ReadCloser)
    (w0 : WriteCloser) (p : List GoByte) (s : Sys W) :
    compressedFile.Write env ⟨f, k, r, some w0⟩ p s =
      ((w0.Write env p s).1, ⟨f, k, r, some w0⟩, (w0.Write env p s).2) := rfl

theorem Write_gzip_unbound_state (env : Env W) (f : fsFile) (r : Option ReadCloser)
    (p : List GoByte) (s : Sys W) :
    (compressedFile.Write env ⟨f, gzipCompressor, r, none⟩ p s).2.1 =
      ⟨f, gzipCompressor, r,
        some (WriteCloser.gzipWriter (env.gzipNewWriterLevel f gzip.BestSpeed s.world).1.1)⟩ := by
  simp only [compressedFile.Write, if_true]
  split <;> rfl

theorem Read_gzip_unbound_calls (env : Env W) (f : fsFile) (w : Option WriteCloser)
    (p : List GoByte) (s : Sys W) :
    calls (compressedFile.Read env ⟨f, gzipCompressor, none, w⟩ p s).2.2.trace =
      calls s.trace ++ Call.gzipNewReader f ::
        (if (env.gzipNewReader f s.world).1.2 = none then [p] else []).map
          (Call.gzipReaderRead (env.gzipNewReader f s.world).1.1) := by
  simp only [compressedFile.Read, if_true]
  by_cases h : (env.gzipNewReader f s.world).1.2 = none
  · have h2 : (Sys.gzipNewReader env f s).1.2 = none := h
    simp [h, h2, calls, ReadCloser.Read, Sys.gzipReaderRead, Sys.gzipNewReader, Sys.log]
  · have h2 : (Sys.gzipNewReader env f s).1.2 ≠ none := h
    simp [h, h2, calls, Sys.gzipNewReader, Sys.log]

theorem Write_gzip_unbound_calls (env : Env W) (f : fsFile) (r : Option ReadCloser)
    (p : List GoByte) (s : Sys W) :
    calls (compressedFile.Write env ⟨f, gzipCompressor, r, none⟩ p s).2.2.trace =
      calls s.trace ++ Call.gzipNewWriterLevel f gzip.BestSpeed ::
        (if (env.gzipNewWriterLevel f gzip.BestSpeed s.world).1.2 = none then [p] else []).map
          (Call.gzipWriterWrite (env.gzipNewWriterLevel f gzip.BestSpeed s.world).1.1) := by
  simp only [compressedFile.Write, if_true]
  by_cases h : (env.gzipNewWriterLevel f gzip.BestSpeed s.world).1.2 = none
  · have h2 : (Sys.gzipNewWriterLevel env f gzip.BestSpeed s).1.2 = none := h
    simp [h, h2, calls, WriteCloser.Write, Sys.gzipWriterWrite, Sys.gzipNewWriterLevel, Sys.log]
  · have h2 : (Sys.gzipNewWriterLevel env f gzip.BestSpeed s).1.2 ≠ none := h
    simp [h, h2, calls, Sys.gzipNewWriterLevel, Sys.log]

theorem run_cons (env : Env W) (cs : compressedFile × Sys W) (op : Op) (ops : List Op) :
    compressedFile.run env cs (op :: ops) =
      compressedFile.run env (compressedFile.step env cs op) ops := rfl

theorem run_append (env : Env W) (cs : compressedFile × Sys W) (ops1 ops2 : List Op) :
    compressedFile.run env cs (ops1 ++ ops2) =
      compressedFile.run env (compressedFile.run env cs ops1) ops2 := by
  simp [compressedFile.run, List.foldl_append]

theorem run_reads_bound (env : Env W) (f : fsFile) (k : compressor) (z : Ptr)
    (w : Option WriteCloser) (ps : List (List GoByte)) :
    ∀ s : Sys W,
      (compressedFile.run env (⟨f, k, some (ReadCloser.gzipReader z), w⟩, s)
          (ps.map Op.read)).1 = ⟨f, k, some (ReadCloser.gzipReader z), w⟩ ∧
      calls (compressedFile.run env (⟨f, k, some (ReadCloser.gzipReader z), w⟩, s)
          (ps.map Op.read)).2.trace = calls s.trace ++ ps.map (Call.gzipReaderRead z) := by
  induction ps with
  | nil => intro s; simp [compressedFile.run]
  | cons p ps ih =>
    intro s
    rw [List.map_cons, run_cons]
    have hstep : compressedFile.step env (⟨f, k, some (ReadCloser.gzipReader z), w⟩, s)
        (Op.read p) = (⟨f, k, some (ReadCloser.gzipReader z), w⟩,
          (Sys.gzipReaderRead env z p s).2) := rfl
    rw [hstep]
    refine ⟨(ih _).1, ?_⟩
    rw [(ih _).2]
    simp [calls, Sys.gzipReaderRead, Sys.log]

theorem run_writes_bound (env : Env W) (f : fsFile) (k : compressor) (z : Ptr)
    (r : Option ReadCloser) (ps : List (List GoByte)) :
    ∀ s : Sys W,
      (compressedFile.run env (⟨f, k, r, some (WriteCloser.gzipWriter z)⟩, s)
          (ps.map Op.write)).1 = ⟨f, k, r, some (WriteCloser.gzipWriter z)⟩ ∧
      calls (compressedFile.run env (⟨f, k, r, some (WriteCloser.gzipWriter z)⟩, s)
          (ps.map Op.write)).2.trace = calls s.trace ++ ps.map (Call.gzipWriterWrite z) := by
  induction ps with
  | nil => intro s; simp [compressedFile.run]
  | cons p ps ih =>
    intro s
    rw [List.map_cons, run_cons]
    have hstep : compressedFile.step env (⟨f, k, r, some (WriteCloser.gzipWriter z)⟩, s)
        (Op.write p) = (⟨f, k, r, some (WriteCloser.gzipWriter z)⟩,
          (Sys.gzipWriterWrite env z p s).2) := rfl
    rw [hstep]
    refine ⟨(ih _).1, ?_⟩
    rw [(ih _).2]
    simp [calls, Sys.gzipWriterWrite, Sys.log]

end Binding

/-- C16 (as stated, refuted), at the toy codec over a file that holds a stream:
a fresh gzip wrapper that is read and then closed is in a state equal to its
initial one, so it is not true that every non-empty sequence of calls leaves
the initial state for good; and `Read`, `Close`, `Read` calls `gzip.NewReader`
twice, the second `Read` constructing a fresh reader. -/
theorem never_back_to_unbound_counterexample :
    (¬ ∀ ops : List Op, ops ≠ [] →
        (compressedFile.run (codecEnv toyCodec)
          (⟨3, gzipCompressor, none, none⟩, ⟨⟨[31, 139, 7, 8, 9], 0, false, none, none⟩, []⟩) ops).1 ≠
          ⟨3, gzipCompressor, none, none⟩) ∧
    (calls (compressedFile.run (codecEnv toyCodec)
        (⟨3, gzipCompressor, none, none⟩, ⟨⟨[31, 139, 7, 8, 9], 0, false, none, none⟩, []⟩)
        [Op.read [0, 0], Op.close, Op.read [0, 0]]).2.trace).countP Call.isNewReader = 2 := by
  refine ⟨fun h => h [Op.read [0, 0], Op.close] (by simp) ?_, ?_⟩
  · decide
  · decide

/-- C16 (amended): `Read` and `Write` never bring a wrapper back to the unbound
state: after `Read` the reader handle is present, it is the one that was bound
if there was one, and the writer handle is unchanged; the same for `Write` with
the roles exchanged. `Close` is not terminal: it sets both handles to absent,
which is the initial state of a wrapper of the same file and variant, and a
`Read` or `Write` on a gzip wrapper in that state starts by constructing a
fresh gzip reader or writer. -/
theorem state_machine_amended {W : Type} (env : Env W) (c : compressedFile)
    (p : List GoByte) (s : Sys W) :
    ((c.Read env p s).2.1.r ≠ none ∧ ((c.Read env p s).2.1.r = c.r ∨ c.r = none) ∧
      (c.Read env p s).2.1.w = c.w) ∧
    ((c.Write env p s).2.1.w ≠ none ∧ ((c.Write env p s).2.1.w = c.w ∨ c.w = none) ∧
      (c.Write env p s).2.1.r = c.r) ∧
    (c.Close env s).2.1 = ⟨c.File, c.compressor, none, none⟩ ∧
    (∃ rest, calls (compressedFile.Read env ⟨c.File, gzipCompressor, none, none⟩ p s).2.2.trace =
      calls s.trace ++ Call.gzipNewReader c.File :: rest) ∧
    (∃ rest, calls (compressedFile.Write env ⟨c.File, gzipCompressor, none, none⟩ p s).2.2.trace =
      calls s.trace ++ Call.gzipNewWriterLevel c.File gzip.BestSpeed :: rest) := by
  obtain ⟨f, k, r, w⟩ := c
  refine ⟨?_, ?_, Close_state env _ s, ⟨_, Read_gzip_unbound_calls env f none p s⟩,
    ⟨_, Write_gzip_unbound_calls env f none p s⟩⟩
  · cases r with
    | some r0 => exact ⟨by simp [Read_bound], Or.inl rfl, rfl⟩
    | none =>
      simp only [compressedFile.Read]
      split
      · split <;> simp
      · simp
  · cases w with
    | some w0 => exact ⟨by simp [Write_bound], Or.inl rfl, rfl⟩
    | none =>
      simp only [compressedFile.Write]
      split
      · split <;> simp
      · simp

/-! ## `Close` after a failed bind

`gzip.NewReader` returns the nil pointer together with its error. Line 71,
`c.r, err = gzip.NewReader(c.File)`, stores that pointer in `c.r` before `err`
is tested, so after a failed first `Read` the reader handle is a non-nil
interface value holding a nil `*gzip.Reader`. -/

section FailedBind

variable {W : Type}

theorem failed_bind_step (env : Env W) (f : fsFile) (p : List GoByte) (s : Sys W) (e : Nat)
    (hfail : (env.gzipNewReader f s.world).1 = (0, some e)) :
    compressedFile.Read env ⟨f, gzipCompressor, none, none⟩ p s =
      (⟨0, some e, p⟩, ⟨f, gzipCompressor, some (ReadCloser.gzipReader 0), none⟩,
        ⟨(env.gzipNewReader f s.world).2, s.trace ++ [⟨Call.gzipNewReader f, some e⟩]⟩) := by
  simp [compressedFile.Read, Sys.gzipNewReader, Sys.log, hfail]

theorem failed_bind_close (env : Env W) (f : fsFile) (p : List GoByte) (s : Sys W) (e : Nat)
    (hfail : (env.gzipNewReader f s.world).1 = (0, some e)) :
    compressedFile.Close env (compressedFile.Read env ⟨f, gzipCompressor, none, none⟩ p s).2.1
        (compressedFile.Read env ⟨f, gzipCompressor, none, none⟩ p s).2.2 =
      (Outcome.panicked, ⟨f, gzipCompressor, none, none⟩,
        ⟨(env.gzipNewReader f s.world).2, s.trace ++ [⟨Call.gzipNewReader f, some e⟩]⟩) := by
  rw [failed_bind_step env f p s e hfail]
  rfl

end FailedBind

/-- C5 (the code at the failing input): on a gzip wrapper whose first `Read` failed
to bind, the reader handle holds the nil `*gzip.Reader`; `Close` panics in
`r.Close()` and makes no call after it, so `File.Close` is not invoked: the calls
of `Read` then `Close` are the `gzip.NewReader` call alone. -/
theorem Close_after_failed_bind_skips_File_Close {W : Type} (env : Env W) (f : fsFile)
    (p : List GoByte) (s : Sys W) (e : Nat)
    (hfail : (env.gzipNewReader f s.world).1 = (0, some e)) :
    (compressedFile.Read env ⟨f, gzipCompressor, none, none⟩ p s).2.1.r =
      some (ReadCloser.gzipReader 0) ∧
    (compressedFile.Close env (compressedFile.Read env ⟨f, gzipCompressor, none, none⟩ p s).2.1
        (compressedFile.Read env ⟨f, gzipCompressor, none, none⟩ p s).2.2).1 =
      Outcome.panicked ∧
    (compressedFile.Close env (compressedFile.Read env ⟨f, gzipCompressor, none, none⟩ p s).2.1
        (compressedFile.Read env ⟨f, gzipCompressor, none, none⟩ p s).2.2).2.2.trace =
      (compressedFile.Read env ⟨f, gzipCompressor, none, none⟩ p s).2.2.trace ∧
    calls (compressedFile.run env (⟨f, gzipCompressor, none, none⟩, s)
        [Op.read p, Op.close]).2.trace = calls s.trace ++ [Call.gzipNewReader f] := by
  have h1 := failed_bind_step env f p s e hfail
  have h2 := failed_bind_close env f p s e hfail
  refine ⟨by rw [h1], by rw [h2], by rw [h2, h1], ?_⟩
  show calls (compressedFile.Close env
    (compressedFile.Read env ⟨f, gzipCompressor, none, none⟩ p s).2.1
    (compressedFile.Read env ⟨f, gzipCompressor, none, none⟩ p s).2.2).2.2.trace = _
  rw [h2]
  simp [calls]

/-- C5 at the toy codec over a file holding the bytes 1, 2, 3: `Read` then `Close`
makes the `gzip.NewReader` call and no `File.Close`. -/
theorem Close_after_failed_bind_skips_File_Close_witness :
    calls (compressedFile.run (codecEnv toyCodec)
        (⟨7, gzipCompressor, none, none⟩, ⟨⟨[1, 2, 3], 0, false, none, none⟩, []⟩)
        [Op.read [0, 0], Op.close]).2.trace = calls [] ++ [Call.gzipNewReader 7] :=
  (Close_after_failed_bind_skips_File_Close (codecEnv toyCodec) 7 [0, 0]
    ⟨⟨[1, 2, 3], 0, false, none, none⟩, []⟩ errHeader rfl).2.2.2

/-- C6 (the code at the failing input): on a gzip wrapper whose first `Read` failed
to bind, `Close` panics: it returns no error value at all, neither `nil` nor the
error of a step. -/
theorem Close_after_failed_bind_returns_nothing {W : Type} (env : Env W) (f : fsFile)
    (p : List GoByte) (s : Sys W) (e : Nat) (err : GoError)
    (hfail : (env.gzipNewReader f s.world).1 = (0, some e)) :
    (compressedFile.Close env (compressedFile.Read env ⟨f, gzipCompressor, none, none⟩ p s).2.1
        (compressedFile.Read env ⟨f, gzipCompressor, none, none⟩ p s).2.2).1 ≠
      Outcome.returned err := by
  rw [failed_bind_close env f p s e hfail]
  simp

/-- C6 at the toy codec over a file holding the bytes 1, 2, 3: `Close` after the
failed `Read` does not return `nil`. -/
theorem Close_after_failed_bind_returns_nothing_witness :
    (compressedFile.Close (codecEnv toyCodec)
        (compressedFile.Read (codecEnv toyCodec) ⟨7, gzipCompressor, none, none⟩ [0, 0]
          ⟨⟨[1, 2, 3], 0, false, none, none⟩, []⟩).2.1
        (compressedFile.Read (codecEnv toyCodec) ⟨7, gzipCompressor, none, none⟩ [0, 0]
          ⟨⟨[1, 2, 3], 0, false, none, none⟩, []⟩).2.2).1 ≠ Outcome.returned none :=
  Close_after_failed_bind_returns_nothing (codecEnv toyCodec) 7 [0, 0]
    ⟨⟨[1, 2, 3], 0, false, none, none⟩, []⟩ errHeader none rfl

/-- C7 (the code at the failing input): on a gzip wrapper whose first `Read` failed
to bind, the first of two `Close` calls panics before `File.Close`, and the
second returns what `File.Close` returns on a file not closed before. The two
calls together make one `File.Close`, not one each. -/
theorem Close_twice_after_failed_bind {W : Type} (env : Env W) (f : fsFile)
    (p : List GoByte) (s : Sys W) (e : Nat)
    (hfail : (env.gzipNewReader f s.world).1 = (0, some e)) :
    (compressedFile.Close env (compressedFile.Read env ⟨f, gzipCompressor, none, none⟩ p s).2.1
        (compressedFile.Read env ⟨f, gzipCompressor, none, none⟩ p s).2.2).1 =
      Outcome.panicked ∧
    (compressedFile.Close env
        (compressedFile.run env (⟨f, gzipCompressor, none, none⟩, s) [Op.read p, Op.close]).1
        (compressedFile.run env (⟨f, gzipCompressor, none, none⟩, s) [Op.read p, Op.close]).2).1 =
      Outcome.returned (env.Close f (env.gzipNewReader f s.world).2).1 ∧
    calls (compressedFile.run env (⟨f, gzipCompressor, none, none⟩, s)
        [Op.read p, Op.close, Op.close]).2.trace =
      calls s.trace ++ [Call.gzipNewReader f, Call.fileClose f] := by
  have h2 := failed_bind_close env f p s e hfail
  have hrun : compressedFile.run env (⟨f, gzipCompressor, none, none⟩, s) [Op.read p, Op.close] =
      (⟨f, gzipCompressor, none, none⟩,
        ⟨(env.gzipNewReader f s.world).2, s.trace ++ [⟨Call.gzipNewReader f, some e⟩]⟩) := by
    show (compressedFile.Close env
      (compressedFile.Read env ⟨f, gzipCompressor, none, none⟩ p s).2.1
      (compressedFile.Read env ⟨f, gzipCompressor, none, none⟩ p s).2.2).2 = _
    rw [h2]
  refine ⟨by rw [h2], ?_, ?_⟩
  · rw [hrun, Close_unbound]
  · rw [show [Op.read p, Op.close, Op.close] = [Op.read p, Op.close] ++ [Op.close] from rfl,
      run_append, hrun]
    show calls (compressedFile.Close env _ _).2.2.trace = _
    rw [Close_unbound]
    simp [calls]

/-- C7 at the toy codec over a file holding the bytes 1, 2, 3: `Read`, `Close`,
`Close` makes one `File.Close`. -/
theorem Close_twice_after_failed_bind_witness :
    calls (compressedFile.run (codecEnv toyCodec)
        (⟨7, gzipCompressor, none, none⟩, ⟨⟨[1, 2, 3], 0, false, none, none⟩, []⟩)
        [Op.read [0, 0], Op.close, Op.close]).2.trace =
      calls [] ++ [Call.gzipNewReader 7, Call.fileClose 7] :=
  (Close_twice_after_failed_bind (codecEnv toyCodec) 7 [0, 0]
    ⟨⟨[1, 2, 3], 0, false, none, none⟩, []⟩ errHeader rfl).2.2

/-- C18 (the code at the failing input): on a gzip wrapper whose first `Read` failed
to bind, one `Close` adds no call to the log: `File.Close` is invoked zero times,
not once. -/
theorem Close_after_failed_bind_never_closes_file {W : Type} (env : Env W) (f : fsFile)
    (p : List GoByte) (s : Sys W) (e : Nat)
    (hfail : (env.gzipNewReader f s.world).1 = (0, some e)) :
    (calls ((compressedFile.Close env
        (compressedFile.Read env ⟨f, gzipCompressor, none, none⟩ p s).2.1
        (compressedFile.Read env ⟨f, gzipCompressor, none, none⟩ p s).2.2).2.2.trace.drop
          (compressedFile.Read env ⟨f, gzipCompressor, none, none⟩ p s).2.2.trace.length)).count
      (Call.fileClose f) = 0 := by
  rw [failed_bind_close env f p s e hfail, failed_bind_step env f p s e hfail]
  simp [calls]

/-- C18 at the toy codec over a file holding the bytes 1, 2, 3. -/
theorem Close_after_failed_bind_never_closes_file_witness :
    (calls ((compressedFile.Close (codecEnv toyCodec)
        (compressedFile.Read (codecEnv toyCodec) ⟨7, gzipCompressor, none, none⟩ [0, 0]
          ⟨⟨[1, 2, 3], 0, false, none, none⟩, []⟩).2.1
        (compressedFile.Read (codecEnv toyCodec) ⟨7, gzipCompressor, none, none⟩ [0, 0]
          ⟨⟨[1, 2, 3], 0, false, none, none⟩, []⟩).2.2).2.2.trace.drop
          (compressedFile.Read (codecEnv toyCodec) ⟨7, gzipCompressor, none, none⟩ [0, 0]
            ⟨⟨[1, 2, 3], 0, false, none, none⟩, []⟩).2.2.trace.length)).count
      (Call.fileClose 7) = 0 :=
  Close_after_failed_bind_never_closes_file (codecEnv toyCodec) 7 [0, 0]
    ⟨⟨[1, 2, 3], 0, false, none, none⟩, []⟩ errHeader rfl

/-- C19 (the code at the failing input): when `gzip.NewReader` fails in the first
`Read` of a gzip wrapper, `Read` returns 0 and the error, and the reader handle
is left holding the nil `*gzip.Reader`, so it is not `nil`. A following `Read`
makes no second `gzip.NewReader` call and leaves the handle as it is. A following
`Close` panics in `r.Close()`: it makes no call and does not close the file. -/
theorem failed_bind_leaves_reader_set {W : Type} (env : Env W) (f : fsFile)
    (p q : List GoByte) (s : Sys W) (e : Nat)
    (hfail : (env.gzipNewReader f s.world).1 = (0, some e)) :
    (compressedFile.Read env ⟨f, gzipCompressor, none, none⟩ p s).1 = ⟨0, some e, p⟩ ∧
    (compressedFile.Read env ⟨f, gzipCompressor, none, none⟩ p s).2.1.r =
      some (ReadCloser.gzipReader 0) ∧
    (compressedFile.run env (⟨f, gzipCompressor, none, none⟩, s) [Op.read p, Op.read q]).1.r =
      some (ReadCloser.gzipReader 0) ∧
    (calls (compressedFile.run env (⟨f, gzipCompressor, none, none⟩, s)
        [Op.read p, Op.read q]).2.trace).countP Call.isNewReader =
      (calls s.trace).countP Call.isNewReader + 1 ∧
    compressedFile.Close env (compressedFile.Read env ⟨f, gzipCompressor, none, none⟩ p s).2.1
        (compressedFile.Read env ⟨f, gzipCompressor, none, none⟩ p s).2.2 =
      (Outcome.panicked, ⟨f, gzipCompressor, none, none⟩,
        (compressedFile.Read env ⟨f, gzipCompressor, none, none⟩ p s).2.2) := by
  have h1 := failed_bind_step env f p s e hfail
  have h2 := failed_bind_close env f p s e hfail
  have hrun : compressedFile.run env (⟨f, gzipCompressor, none, none⟩, s)
      [Op.read p, Op.read q] =
      compressedFile.run env (⟨f, gzipCompressor, some (ReadCloser.gzipReader 0), none⟩,
        ⟨(env.gzipNewReader f s.world).2, s.trace ++ [⟨Call.gzipNewReader f, some e⟩]⟩)
        ([q].map Op.read) := by
    rw [run_cons]
    show compressedFile.run env
      (compressedFile.Read env ⟨f, gzipCompressor, none, none⟩ p s).2 [Op.read q] = _
    rw [h1]
    rfl
  have hb := run_reads_bound env f gzipCompressor 0 none [q]
    ⟨(env.gzipNewReader f s.world).2, s.trace ++ [⟨Call.gzipNewReader f, some e⟩]⟩
  refine ⟨by rw [h1], by rw [h1], ?_, ?_, ?_⟩
  · rw [hrun, hb.1]
  · rw [hrun, hb.2]
    simp [calls, Call.isNewReader]
  · rw [h2, h1]

/-- C19 at the toy codec over a file holding the bytes 1, 2, 3: `gzip.NewReader`
fails with `gzip.ErrHeader`, the reader handle holds the nil pointer, and `Close`
panics without a call. -/
theorem failed_bind_leaves_reader_set_witness :
    (compressedFile.Read (codecEnv toyCodec) ⟨7, gzipCompressor, none, none⟩ [0, 0]
        ⟨⟨[1, 2, 3], 0, false, none, none⟩, []⟩).2.1.r = some (ReadCloser.gzipReader 0) ∧
    compressedFile.Close (codecEnv toyCodec)
        (compressedFile.Read (codecEnv toyCodec) ⟨7, gzipCompressor, none, none⟩ [0, 0]
          ⟨⟨[1, 2, 3], 0, false, none, none⟩, []⟩).2.1
        (compressedFile.Read (codecEnv toyCodec) ⟨7, gzipCompressor, none, none⟩ [0, 0]
          ⟨⟨[1, 2, 3], 0, false, none, none⟩, []⟩).2.2 =
      (Outcome.panicked, ⟨7, gzipCompressor, none, none⟩,
        (compressedFile.Read (codecEnv toyCodec) ⟨7, gzipCompressor, none, none⟩ [0, 0]
          ⟨⟨[1, 2, 3], 0, false, none, none⟩, []⟩).2.2) :=
  have h := failed_bind_leaves_reader_set (codecEnv toyCodec) 7 [0, 0] [0, 0]
    ⟨⟨[1, 2, 3], 0, false, none, none⟩, []⟩ errHeader rfl
  ⟨h.2.1, h.2.2.2.2⟩

/-! ## The round trip through the ideal codec -/

section RoundTrip

theorem codec_writes_bound (k : Codec) (f : fsFile) (z : Ptr) (r : Option ReadCloser)
    (ps : List (List GoByte)) :
    ∀ (s : Sys CodecWorld) (cs : List (List GoByte)), s.world.wbuf = some cs →
      (compressedFile.run (codecEnv k) (⟨f, gzipCompressor, r, some (WriteCloser.gzipWriter z)⟩, s)
          (ps.map Op.write)).2.world = { s.world with wbuf := some (cs ++ ps) } := by
  induction ps with
  | nil =>
    intro s cs h
    simp [compressedFile.run, ← h]
  | cons p ps ih =>
    intro s cs h
    rw [List.map_cons, run_cons]
    have hstep : compressedFile.step (codecEnv k)
        (⟨f, gzipCompressor, r, some (WriteCloser.gzipWriter z)⟩, s) (Op.write p) =
        (⟨f, gzipCompressor, r, some (WriteCloser.gzipWriter z)⟩,
          (Sys.gzipWriterWrite (codecEnv k) z p s).2) := rfl
    have hw : (Sys.gzipWriterWrite (codecEnv k) z p s).2.world =
        { s.world with wbuf := some (cs ++ [p]) } := by
      simp [Sys.gzipWriterWrite, Sys.log, codecEnv, h]
    rw [hstep, ih _ (cs ++ [p]) (by rw [hw]), hw]
    simp

theorem codec_first_write (k : Codec) (f : fsFile) (p : List GoByte) (s : Sys CodecWorld) :
    (compressedFile.Write (codecEnv k) ⟨f, gzipCompressor, none, none⟩ p s).2.1 =
        ⟨f, gzipCompressor, none, some (WriteCloser.gzipWriter 1)⟩ ∧
      (compressedFile.Write (codecEnv k) ⟨f, gzipCompressor, none, none⟩ p s).2.2.world =
        { s.world with wbuf := some [p] } := by
  refine ⟨by rw [Write_gzip_unbound_state]; rfl, ?_⟩
  simp [compressedFile.Write, Sys.gzipNewWriterLevel, Sys.log, codecEnv, WriteCloser.Write,
    Sys.gzipWriterWrite]

theorem codec_close_writer (k : Codec) (f : fsFile) (s : Sys CodecWorld)
    (cs : List (List GoByte)) (h : s.world.wbuf = some cs) (hopen : s.world.closed = false) :
    (compressedFile.Close (codecEnv k) ⟨f, gzipCompressor, none, some (WriteCloser.gzipWriter 1)⟩
        s).2.2.world =
      { s.world with file := s.world.file ++ k.enc cs, closed := true, wbuf := none } := by
  simp [compressedFile.Close, compressedFile.closeReader, compressedFile.closeWriter,
    WriteCloser.Close, Sys.gzipWriterClose, Sys.fileClose, Sys.log, codecEnv, h, hopen]

theorem codec_writes (k : Codec) (f : fsFile) (p : List GoByte) (ps : List (List GoByte))
    (s : Sys CodecWorld) :
    (compressedFile.run (codecEnv k) (⟨f, gzipCompressor, none, none⟩, s)
        ((p :: ps).map Op.write)).1 = ⟨f, gzipCompressor, none, some (WriteCloser.gzipWriter 1)⟩ ∧
    (compressedFile.run (codecEnv k) (⟨f, gzipCompressor, none, none⟩, s)
        ((p :: ps).map Op.write)).2.world = { s.world with wbuf := some (p :: ps) } := by
  rw [List.map_cons, run_cons]
  have hstep : compressedFile.step (codecEnv k) (⟨f, gzipCompressor, none, none⟩, s) (Op.write p) =
      (⟨f, gzipCompressor, none, some (WriteCloser.gzipWriter 1)⟩,
        (compressedFile.Write (codecEnv k) ⟨f, gzipCompressor, none, none⟩ p s).2.2) := by
    show (compressedFile.Write (codecEnv k) ⟨f, gzipCompressor, none, none⟩ p s).2 = _
    rw [← Prod.mk.eta (p := (compressedFile.Write (codecEnv k) _ p s).2),
      (codec_first_write k f p s).1]
  rw [hstep]
  have h1 := (codec_first_write k f p s).2
  refine ⟨(run_writes_bound (codecEnv k) f gzipCompressor 1 none ps _).1, ?_⟩
  rw [codec_writes_bound k f 1 none ps _ [p] (by rw [h1]), h1]
  simp

theorem codec_written (k : Codec) (f : fsFile) (p : List GoByte) (ps : List (List GoByte))
    (s : Sys CodecWorld) (hopen : s.world.closed = false) :
    (compressedFile.run (codecEnv k) (⟨f, gzipCompressor, none, none⟩, s)
        ((p :: ps).map Op.write ++ [Op.close])).2.world =
      { s.world with file := s.world.file ++ k.enc (p :: ps), closed := true, wbuf := none } := by
  rw [run_append]
  have h1 := (codec_writes k f p ps s).1
  have h2 := (codec_writes k f p ps s).2
  show (compressedFile.Close (codecEnv k)
    (compressedFile.run (codecEnv k) _ ((p :: ps).map Op.write)).1
    (compressedFile.run (codecEnv k) _ ((p :: ps).map Op.write)).2).2.2.world = _
  rw [h1, codec_close_writer k f _ (p :: ps) (by rw [h2]) (by rw [h2]; exact hopen), h2]

theorem codec_closed_unwritten (k : Codec) (f : fsFile) (s : Sys CodecWorld)
    (hopen : s.world.closed = false) :
    (compressedFile.run (codecEnv k) (⟨f, gzipCompressor, none, none⟩, s) [Op.close]).2 =
      ⟨{ s.world with closed := true }, s.trace ++ [⟨Call.fileClose f, none⟩]⟩ := by
  simp [compressedFile.run, compressedFile.step, Close_unbound, codecEnv, hopen]

theorem Read_gzip_unbound_ok {W : Type} (env : Env W) (f : fsFile) (w : Option WriteCloser)
    (p : List GoByte) (s : Sys W) (h : (env.gzipNewReader f s.world).1.2 = none) :
    compressedFile.Read env ⟨f, gzipCompressor, none, w⟩ p s =
      compressedFile.Read env
        ⟨f, gzipCompressor, some (ReadCloser.gzipReader (env.gzipNewReader f s.world).1.1), w⟩ p
        (Sys.gzipNewReader env f s).2 := by
  have h2 : (Sys.gzipNewReader env f s).1.2 = none := h
  simp only [compressedFile.Read, if_true, h2, ne_eq, not_true_eq_false, if_false]
  rfl

theorem Read_gzip_unbound_fail {W : Type} (env : Env W) (f : fsFile) (w : Option WriteCloser)
    (p : List GoByte) (s : Sys W) (h : (env.gzipNewReader f s.world).1.2 ≠ none) :
    (compressedFile.Read env ⟨f, gzipCompressor, none, w⟩ p s).1 =
      ⟨0, (env.gzipNewReader f s.world).1.2, p⟩ := by
  have h2 : (Sys.gzipNewReader env f s).1.2 ≠ none := h
  simp only [compressedFile.Read, if_true, h2, ne_eq, not_false_eq_true]
  rfl

theorem readFrom_nil (p : List GoByte) : readFrom [] p = ⟨0, some errEOF, p⟩ := by
  simp [readFrom]

theorem readFrom_data (src p : List GoByte) (h : src ≠ []) :
    (readFrom src p).err = none ∧
      (readFrom src p).buf.take (readFrom src p).n.toNat = src.take p.length := by
  simp only [readFrom, h, if_false, Int.toNat_ofNat, true_and]
  apply List.take_left'
  simp [List.length_take]

theorem codec_read_bound (k : Codec) (f : fsFile) (z : Ptr) (w : Option WriteCloser)
    (p : List GoByte) (s : Sys CodecWorld) (plain : List GoByte)
    (h : s.world.rbuf = some plain) :
    (compressedFile.Read (codecEnv k) ⟨f, gzipCompressor, some (ReadCloser.gzipReader z), w⟩ p
        s).1 = readFrom plain p ∧
    (compressedFile.Read (codecEnv k) ⟨f, gzipCompressor, some (ReadCloser.gzipReader z), w⟩ p
        s).2.1 = ⟨f, gzipCompressor, some (ReadCloser.gzipReader z), w⟩ ∧
    (compressedFile.Read (codecEnv k) ⟨f, gzipCompressor, some (ReadCloser.gzipReader z), w⟩ p
        s).2.2.world.rbuf = some (plain.drop p.length) := by
  simp [Read_bound, ReadCloser.Read, Sys.gzipReaderRead, Sys.log, codecEnv, h]

theorem readAll_bound (k : Codec) (f : fsFile) (z : Ptr) (w : Option WriteCloser) (size : Nat)
    (hsize : 0 < size) :
    ∀ (fuel : Nat) (plain : List GoByte) (s : Sys CodecWorld) (acc : List GoByte),
      s.world.rbuf = some plain → plain.length < fuel →
      readAll (codecEnv k) size fuel ⟨f, gzipCompressor, some (ReadCloser.gzipReader z), w⟩ s acc =
        some (acc ++ plain, some errEOF) := by
  intro fuel
  induction fuel with
  | zero => intro plain s acc _ h; omega
  | succ fuel ih =>
    intro plain s acc hr hlen
    obtain ⟨h1, h2, h3⟩ := codec_read_bound k f z w (List.replicate size 0) s plain hr
    rw [readAll]
    simp only [h1, h2]
    by_cases hp : plain = []
    · subst hp
      simp [readFrom_nil]
    · obtain ⟨he, hd⟩ := readFrom_data plain (List.replicate size 0) hp
      rw [he, hd]
      simp only [ne_eq, not_true_eq_false, if_false, List.length_replicate]
      rw [List.length_replicate] at h3
      have hpos : 0 < plain.length := List.length_pos.mpr hp
      rw [ih (plain.drop size) _ _ h3 (by rw [List.length_drop]; omega)]
      simp [List.append_assoc]

theorem readAll_fresh_ok (k : Codec) (f : fsFile) (size fuel : Nat) (hsize : 0 < size)
    (s : Sys CodecWorld) (plain : List GoByte) (hopen : s.world.closed = false)
    (hdec : k.dec (s.world.file.drop s.world.pos) = Except.ok plain)
    (hfuel : plain.length < fuel) :
    readAll (codecEnv k) size fuel ⟨f, gzipCompressor, none, none⟩ s [] =
      some (plain, some errEOF) := by
  have hnr : (codecEnv k).gzipNewReader f s.world =
      ((1, none), { s.world with pos := s.world.file.length, rbuf := some plain }) := by
    simp [codecEnv, hdec, hopen]
  have herr : ((codecEnv k).gzipNewReader f s.world).1.2 = none := by rw [hnr]
  have hb := readAll_bound k f 1 none size hsize fuel plain (Sys.gzipNewReader (codecEnv k) f s).2 []
    (by simp [Sys.gzipNewReader, Sys.log, hnr]) hfuel
  cases fuel with
  | zero => omega
  | succ fuel =>
    rw [readAll] at hb ⊢
    rw [Read_gzip_unbound_ok (codecEnv k) f none _ s herr]
    have hz : ((codecEnv k).gzipNewReader f s.world).1.1 = 1 := by rw [hnr]
    rw [hz]
    simpa using hb

theorem readAll_fresh_fail (k : Codec) (f : fsFile) (size fuel : Nat) (hfuel : 0 < fuel)
    (s : Sys CodecWorld) (e : Nat) (hopen : s.world.closed = false)
    (hdec : k.dec (s.world.file.drop s.world.pos) = Except.error e) :
    readAll (codecEnv k) size fuel ⟨f, gzipCompressor, none, none⟩ s [] = some ([], some e) := by
  have hnr : (codecEnv k).gzipNewReader f s.world = ((0, some e), s.world) := by
    simp [codecEnv, hdec, hopen]
  have herr : ((codecEnv k).gzipNewReader f s.world).1.2 ≠ none := by simp [hnr]
  cases fuel with
  | zero => omega
  | succ fuel =>
    rw [readAll]
    simp [Read_gzip_unbound_fail (codecEnv k) f none _ s herr, hnr]

theorem round_trip_core (k : Codec) (hinv : ∀ cs, k.dec (k.enc cs) = Except.ok cs.flatten)
    (chunks : List (List GoByte)) (hcase : chunks ≠ [] ∨ k.dec [] = Except.error errEOF)
    (f g : fsFile) (size fuel : Nat) (hsize : 0 < size) (hfuel : chunks.flatten.length < fuel) :
    readAll (codecEnv k) size fuel ⟨g, gzipCompressor, none, none⟩
        ⟨(compressedFile.run (codecEnv k)
            (⟨f, gzipCompressor, none, none⟩, ⟨CodecWorld.empty, []⟩)
            (chunks.map Op.write ++ [Op.close])).2.world.reopen, []⟩ [] =
      some (chunks.flatten, some errEOF) := by
  cases chunks with
  | nil =>
    have hd : k.dec [] = Except.error errEOF := by
      rcases hcase with h | h
      · exact absurd rfl h
      · exact h
    rw [List.map_nil, List.nil_append, codec_closed_unwritten k f _ rfl]
    exact readAll_fresh_fail k g size fuel (by omega) _ errEOF rfl
      (by simpa [CodecWorld.reopen, CodecWorld.empty] using hd)
  | cons p ps =>
    rw [codec_written k f p ps _ rfl]
    apply readAll_fresh_ok k g size fuel hsize _ _ rfl
    · simpa [CodecWorld.reopen, CodecWorld.empty] using hinv (p :: ps)
    · exact hfuel

theorem toyCodec_inverts (cs : List (List GoByte)) :
    toyCodec.dec (toyCodec.enc cs) = Except.ok cs.flatten := rfl

theorem codec_write_calls (k : Codec) (f : fsFile) (p : List GoByte) (ps : List (List GoByte))
    (s : Sys CodecWorld) :
    calls (compressedFile.run (codecEnv k) (⟨f, gzipCompressor, none, none⟩, s)
        ((p :: ps).map Op.write ++ [Op.close])).2.trace =
      calls s.trace ++ Call.gzipNewWriterLevel f gzip.BestSpeed ::
        ((p :: ps).map (Call.gzipWriterWrite 1) ++ [Call.gzipWriterClose 1, Call.fileClose f]) := by
  rw [run_append]
  have h1 := (codec_writes k f p ps s).1
  show calls (compressedFile.Close (codecEnv k)
    (compressedFile.run (codecEnv k) _ ((p :: ps).map Op.write)).1
    (compressedFile.run (codecEnv k) _ ((p :: ps).map Op.write)).2).2.2.trace = _
  rw [Close_calls_live _ _ _ (by rw [h1]; simp) (by rw [h1]; simp), h1, List.map_cons, run_cons]
  have hstep : compressedFile.step (codecEnv k) (⟨f, gzipCompressor, none, none⟩, s) (Op.write p) =
      (⟨f, gzipCompressor, none, some (WriteCloser.gzipWriter 1)⟩,
        (compressedFile.Write (codecEnv k) ⟨f, gzipCompressor, none, none⟩ p s).2.2) := by
    show (compressedFile.Write (codecEnv k) ⟨f, gzipCompressor, none, none⟩ p s).2 = _
    rw [← Prod.mk.eta (p := (compressedFile.Write (codecEnv k) _ p s).2),
      (codec_first_write k f p s).1]
  rw [hstep, (run_writes_bound (codecEnv k) f gzipCompressor 1 none ps _).2,
    Write_gzip_unbound_calls]
  simp [codecEnv, WriteCloser.closeCall]

end RoundTrip

/-- C13: with a codec whose decoder inverts its encoder, write the chunks of any
splitting of `B` through a fresh gzip wrapper over a new file and close it; reading
the stored bytes through another fresh gzip wrapper until `Read` returns an error
gives exactly `B`, ended by `io.EOF`, as soon as the fuel exceeds the length of
`B`. When there is no `Write` call at all, nothing is stored and the codec is
required to report empty input as `io.EOF`, as Go's gzip reader does. -/
theorem round_trip (k : Codec) (chunks : List (List GoByte)) (f g : fsFile) (size fuel : Nat)
    (hinv : ∀ cs, k.dec (k.enc cs) = Except.ok cs.flatten)
    (hempty : chunks = [] → k.dec [] = Except.error errEOF)
    (hsize : 0 < size) (hfuel : chunks.flatten.length < fuel) :
    readAll (codecEnv k) size fuel ⟨g, gzipCompressor, none, none⟩
        ⟨(compressedFile.run (codecEnv k)
            (⟨f, gzipCompressor, none, none⟩, ⟨CodecWorld.empty, []⟩)
            (chunks.map Op.write ++ [Op.close])).2.world.reopen, []⟩ [] =
      some (chunks.flatten, some errEOF) := by
  apply round_trip_core k hinv chunks _ f g size fuel hsize hfuel
  by_cases h : chunks = []
  · exact Or.inr (hempty h)
  · exact Or.inl h

/-- C13 at the toy codec: the bytes 1 to 6 written as the chunks `[1,2]`, `[3]`, `[]`,
`[4,5,6]` are read back with a buffer of two bytes. -/
theorem round_trip_witness :
    readAll (codecEnv toyCodec) 2 10 ⟨4, gzipCompressor, none, none⟩
        ⟨(compressedFile.run (codecEnv toyCodec)
            (⟨3, gzipCompressor, none, none⟩, ⟨CodecWorld.empty, []⟩)
            ([[1, 2], [3], [], [4, 5, 6]].map Op.write ++ [Op.close])).2.world.reopen, []⟩ [] =
      some ([1, 2, 3, 4, 5, 6], some errEOF) :=
  round_trip toyCodec [[1, 2], [3], [], [4, 5, 6]] 3 4 2 10 toyCodec_inverts
    (fun h => nomatch h) (by decide) (by decide)

/-- C14 (as stated, refuted), at the toy codec: a wrapper returned by `NewWriter`
that is closed without a `Write` makes `File.Close` its only call; the file holds
no byte, which is not what the codec emits for an empty stream and does not
decode, and the first `Read` of a fresh gzip wrapper over it fails to bind. -/
theorem unwritten_close_counterexample :
    gzipCompressor.NewWriter 3 = WrappedFile.wrapped ⟨3, gzipCompressor, none, none⟩ ∧
    (compressedFile.run (codecEnv toyCodec)
        (⟨3, gzipCompressor, none, none⟩, ⟨CodecWorld.empty, []⟩) [Op.close]).2.trace =
      [⟨Call.fileClose 3, none⟩] ∧
    (compressedFile.run (codecEnv toyCodec)
        (⟨3, gzipCompressor, none, none⟩, ⟨CodecWorld.empty, []⟩) [Op.close]).2.world.file ≠
      toyCodec.enc [] ∧
    toyCodec.dec (compressedFile.run (codecEnv toyCodec)
        (⟨3, gzipCompressor, none, none⟩, ⟨CodecWorld.empty, []⟩) [Op.close]).2.world.file =
      Except.error errEOF ∧
    (compressedFile.Read (codecEnv toyCodec) ⟨4, gzipCompressor, none, none⟩ [0, 0]
        ⟨(compressedFile.run (codecEnv toyCodec)
          (⟨3, gzipCompressor, none, none⟩, ⟨CodecWorld.empty, []⟩)
          [Op.close]).2.world.reopen, []⟩).2.2.trace =
      [⟨Call.gzipNewReader 4, some errEOF⟩] := by
  refine ⟨by decide, by decide, by decide, rfl, by decide⟩

/-- C14 (amended): with a codec whose decoder inverts its encoder, on a wrapper
returned by `NewWriter` on which `Write` was called at least once and only with
empty buffers, `Close` has the gzip writer emit its stream into the file before
`File.Close`; the stored bytes decode to the empty string, a fresh gzip wrapper
binds over them without error and reads them as empty. When `Write` was never
called, `Close` calls `File.Close` only and the file holds what it held. -/
theorem zero_bytes_written_stream (k : Codec) (chunks : List (List GoByte)) (f g : fsFile)
    (size fuel : Nat) (p : List GoByte)
    (hinv : ∀ cs, k.dec (k.enc cs) = Except.ok cs.flatten)
    (hne : chunks ≠ []) (hzero : ∀ c ∈ chunks, c = [])
    (hsize : 0 < size) (hfuel : 0 < fuel) :
    gzipCompressor.NewWriter f = WrappedFile.wrapped ⟨f, gzipCompressor, none, none⟩ ∧
    calls (compressedFile.run (codecEnv k)
        (⟨f, gzipCompressor, none, none⟩, ⟨CodecWorld.empty, []⟩)
        (chunks.map Op.write ++ [Op.close])).2.trace =
      Call.gzipNewWriterLevel f gzip.BestSpeed ::
        (chunks.map (Call.gzipWriterWrite 1) ++ [Call.gzipWriterClose 1, Call.fileClose f]) ∧
    (compressedFile.run (codecEnv k)
        (⟨f, gzipCompressor, none, none⟩, ⟨CodecWorld.empty, []⟩)
        (chunks.map Op.write ++ [Op.close])).2.world.file = k.enc chunks ∧
    k.dec (k.enc chunks) = Except.ok [] ∧
    (compressedFile.Read (codecEnv k) ⟨g, gzipCompressor, none, none⟩ p
        ⟨(compressedFile.run (codecEnv k)
          (⟨f, gzipCompressor, none, none⟩, ⟨CodecWorld.empty, []⟩)
          (chunks.map Op.write ++ [Op.close])).2.world.reopen, []⟩).2.2.trace.head? =
      some ⟨Call.gzipNewReader g, none⟩ ∧
    readAll (codecEnv k) size fuel ⟨g, gzipCompressor, none, none⟩
        ⟨(compressedFile.run (codecEnv k)
            (⟨f, gzipCompressor, none, none⟩, ⟨CodecWorld.empty, []⟩)
            (chunks.map Op.write ++ [Op.close])).2.world.reopen, []⟩ [] =
      some ([], some errEOF) ∧
    (compressedFile.run (codecEnv k)
        (⟨f, gzipCompressor, none, none⟩, ⟨CodecWorld.empty, []⟩) [Op.close]).2 =
      ⟨{ CodecWorld.empty with closed := true }, [⟨Call.fileClose f, none⟩]⟩ := by
  have hflat : chunks.flatten = [] := List.flatten_eq_nil_iff.mpr hzero
  have hdec : k.dec (k.enc chunks) = Except.ok [] := by rw [hinv, hflat]
  have hrt := round_trip_core k hinv chunks (Or.inl hne) f g size fuel hsize
    (by rw [hflat]; exact hfuel)
  rw [hflat] at hrt
  obtain ⟨c, cs, rfl⟩ := List.exists_cons_of_ne_nil hne
  refine ⟨gzip_NewWriter f, ?_, ?_, hdec, ?_, hrt, codec_closed_unwritten k f _ rfl⟩
  · rw [codec_write_calls]
    simp [calls]
  · rw [codec_written k f c cs _ rfl]
    simp [CodecWorld.empty]
  · rw [codec_written k f c cs _ rfl]
    have hnr : ((codecEnv k).gzipNewReader g
        (CodecWorld.reopen { CodecWorld.empty with
          file := CodecWorld.empty.file ++ k.enc (c :: cs), closed := true,
          wbuf := none })).1.2 = none := by
      simp [codecEnv, CodecWorld.reopen, CodecWorld.empty, hdec]
    rw [Read_gzip_unbound_ok (codecEnv k) g none p _ hnr]
    simp [Read_bound, ReadCloser.Read, Sys.gzipReaderRead, Sys.gzipNewReader, Sys.log]
    exact hnr

/-- C14 (amended) at the toy codec: one `Write` of the empty buffer, then `Close`;
the file holds the two magic bytes and is read back as empty. -/
theorem zero_bytes_written_stream_witness :
    (compressedFile.run (codecEnv toyCodec)
        (⟨3, gzipCompressor, none, none⟩, ⟨CodecWorld.empty, []⟩)
        ([[]].map Op.write ++ [Op.close])).2.world.file = [31, 139] ∧
    readAll (codecEnv toyCodec) 2 1 ⟨4, gzipCompressor, none, none⟩
        ⟨(compressedFile.run (codecEnv toyCodec)
            (⟨3, gzipCompressor, none, none⟩, ⟨CodecWorld.empty, []⟩)
            ([[]].map Op.write ++ [Op.close])).2.world.reopen, []⟩ [] =
      some ([], some errEOF) :=
  have h := zero_bytes_written_stream toyCodec [[]] 3 4 2 1 [0, 0]
    toyCodec_inverts (by simp) (by simp) (by decide) (by decide)
  ⟨h.2.2.1, h.2.2.2.2.2.1⟩

end Oklog
